import Mathlib

/-!
Shallow embedding of `src/copyFolder.js` (the final draft, lines 1-659): a resumable
Google-Drive folder copy driven by a persistent progress tree (`FolderState`), a two-phase
traversal (`createFolders`, then `copyFiles`), a deadline check (`_checkTimeout`) and an
exponential-backoff wrapper (`withBackoff`).

Modelling conventions:
* Remote ids are opaque strings; newly created destination ids are drawn from a fresh
  counter in the execution state.
* Time is an abstract clock in the execution state.  Every remote *mutation* (folder
  creation, file copy, form unlink/trash) advances the clock by one unit; remote reads
  are treated as free.  `_checkTimeout` compares the clock against the absolute deadline
  (`jobTimeoutTime`), exactly as `Date.now() >= jobTimeoutTime` does.
* Every remote mutation is recorded as an `Event` carrying the clock at which the call
  started and whether it was issued under the backoff wrapper.
* Remote mutations themselves are modelled as always succeeding; the backoff wrapper is
  additionally embedded in full generality (`withBackoff`) over an arbitrary sequence of
  attempt outcomes, to analyse its retry behaviour.
* `DriveApp.getFolderById(null)` throws in Apps Script; this is modelled as the `.err`
  outcome.
-/

namespace DriveCopy

/-! ### Configuration constants (lines 26-65) and mime types -/

/-- CONVERT_NATIVE_FORMAT (line 41): whether to convert docs/slides/sheets to native
Google Drive formats.  Kept as a field of `Env` below so that both configurations can be
analysed. -/
def CONVERT_NATIVE_FORMAT : Bool := true

/-- MAX_BACKOFF_TIME_MS (line 48). -/
def MAX_BACKOFF_TIME_MS : Nat := 32 * 1000

/-- MAX_BACKOFF_ATTEMPTS (line 55). -/
def MAX_BACKOFF_ATTEMPTS : Nat := 20

/-- MAX_RUNTIME_MS (line 31). -/
def MAX_RUNTIME_MS : Nat := 5 * 60 * 1000

/-- MimeType.GOOGLE_SHEETS. -/
def GOOGLE_SHEETS : String := "application/vnd.google-apps.spreadsheet"

/-- MimeType.GOOGLE_SLIDES. -/
def GOOGLE_SLIDES : String := "application/vnd.google-apps.presentation"

/-- MimeType.GOOGLE_DOCS. -/
def GOOGLE_DOCS : String := "application/vnd.google-apps.document"

/-- MimeType.MICROSOFT_EXCEL. -/
def MICROSOFT_EXCEL : String :=
  "application/vnd.openxmlformats-officedocument.spreadsheetml.sheet"

/-- MimeType.MICROSOFT_EXCEL_LEGACY. -/
def MICROSOFT_EXCEL_LEGACY : String := "application/vnd.ms-excel"

/-- MimeType.MICROSOFT_POWERPOINT. -/
def MICROSOFT_POWERPOINT : String :=
  "application/vnd.openxmlformats-officedocument.presentationml.presentation"

/-- MimeType.MICROSOFT_POWERPOINT_LEGACY. -/
def MICROSOFT_POWERPOINT_LEGACY : String := "application/vnd.ms-powerpoint"

/-- MimeType.MICROSOFT_WORD. -/
def MICROSOFT_WORD : String :=
  "application/vnd.openxmlformats-officedocument.wordprocessingml.document"

/-- MimeType.MICROSOFT_WORD_LEGACY. -/
def MICROSOFT_WORD_LEGACY : String := "application/msword"

/-- FORMAT_CONVERSION_MAPPING (lines 91-100), as an association list. -/
def FORMAT_CONVERSION_MAPPING : List (String × String) :=
  [(MICROSOFT_EXCEL, GOOGLE_SHEETS),
   (MICROSOFT_EXCEL_LEGACY, GOOGLE_SHEETS),
   (MICROSOFT_POWERPOINT, GOOGLE_SLIDES),
   (MICROSOFT_POWERPOINT_LEGACY, GOOGLE_SLIDES),
   (MICROSOFT_WORD, GOOGLE_DOCS),
   (MICROSOFT_WORD_LEGACY, GOOGLE_DOCS)]

/-! ### The progress tree (typedefs at lines 207-240) -/

/-- FileState (lines 227-240): a file of the progress tree.  `destId` is `none` while the
file has not been copied. -/
structure FileState where
  id : String
  name : String
  destId : Option String
deriving Repr, DecidableEq

/-- FolderState (lines 207-225): a folder node of the progress tree. -/
inductive FolderState where
  | node (id : String) (name : String) (filesCopied : Bool) (foldersCopied : Bool)
      (destId : Option String) (files : List FileState) (folders : List FolderState)

def FolderState.id : FolderState → String
  | .node i _ _ _ _ _ _ => i

def FolderState.name : FolderState → String
  | .node _ n _ _ _ _ _ => n

def FolderState.filesCopied : FolderState → Bool
  | .node _ _ fc _ _ _ _ => fc

def FolderState.foldersCopied : FolderState → Bool
  | .node _ _ _ fo _ _ _ => fo

def FolderState.destId : FolderState → Option String
  | .node _ _ _ _ d _ _ => d

def FolderState.files : FolderState → List FileState
  | .node _ _ _ _ _ fs _ => fs

def FolderState.folders : FolderState → List FolderState
  | .node _ _ _ _ _ _ cs => cs

/-- Assignment `folderState.destId = ...` (line 324). -/
def FolderState.setDestId : FolderState → Option String → FolderState
  | .node i n fc fo _ fs cs, d => .node i n fc fo d fs cs

/-! ### Execution state, remote-mutation log and environment -/

/-- The mutable per-execution context: the abstract clock, the absolute deadline
(`jobTimeoutTime`, line 74 / 106) and the fresh-id counter for newly created
destination objects. -/
structure St where
  clock : Nat
  deadline : Nat
  fresh : Nat
deriving Repr, DecidableEq

/-- One remote mutation issued against the storage/forms services. -/
inductive EventKind where
  | createFolder (srcFolderId parentDestId name newId : String)
  | copyDefault (srcFileId name parentDestId newId : String)
  | copySpreadsheet (srcFileId name parentDestId newId : String)
  | conversionCreate (srcFileId name parentDestId convertedMimeType newId : String)
  | removeFormLink (formUrl : String)
  | trashFormFile (formUrl : String)
deriving Repr, DecidableEq

/-- A logged remote mutation: what was done, the clock at which the blocking call
started, and whether the call was issued through the backoff executor. -/
structure Event where
  kind : EventKind
  startClock : Nat
  viaBackoff : Bool
deriving Repr, DecidableEq

/-- The unchanging remote world: mime type and display name of each source file
(`file.getMimeType()`, `file.getName()`), the linked-form URLs found on the sheets of a
source spreadsheet, the URL of the duplicated form produced when a linked spreadsheet is
copied, and the CONVERT_NATIVE_FORMAT configuration value. -/
structure Env where
  mimeOf : String → String
  nameOf : String → String
  formsOf : String → List String
  copiedFormUrl : String → String
  convertNativeFormat : Bool

/-- `_checkTimeout` (lines 645-647): `Date.now() >= jobTimeoutTime`. -/
def checkTimeout (σ : St) : Bool := σ.deadline ≤ σ.clock

/-- Destination id allocated for the `n`-th created object. -/
def freshDestId (n : Nat) : String := "dest-" ++ toString n

/-- Draw a fresh destination id. -/
def allocId (σ : St) : String × St :=
  (freshDestId σ.fresh, { σ with fresh := σ.fresh + 1 })

/-- Perform one blocking remote mutation: advances the clock by one unit and returns
the clock at which the call started. -/
def tick (σ : St) : Nat × St :=
  (σ.clock, { σ with clock := σ.clock + 1 })

/-- Result of a single copy/create operation: the id of the created object, the new
execution state, and the remote mutations performed. -/
structure OpRes where
  newId : String
  st : St
  events : List Event
deriving Repr, DecidableEq

/-- `destFolder.createFolder(folderName)` at line 323, together with the id read-back. -/
def createFolderOp (srcFolderId parentDestId nm : String) (σ : St) : OpRes :=
  let a := allocId σ
  let t := tick a.2
  ⟨a.1, t.2, [⟨.createFolder srcFolderId parentDestId nm a.1, t.1, false⟩]⟩

/-- `defaultCopy` (lines 517-519): `file.makeCopy(file.getName(), destFolder)`. -/
def defaultCopy (env : Env) (fileId parentDestId : String) (σ : St) : OpRes :=
  let a := allocId σ
  let t := tick a.2
  ⟨a.1, t.2, [⟨.copyDefault fileId (env.nameOf fileId) parentDestId a.1, t.1, false⟩]⟩

/-- Marks events as having been issued under the backoff executor. -/
def markBackoff (evs : List Event) : List Event :=
  evs.map fun e => { e with viaBackoff := true }

/-- A call `withBackoff(() => op())` as it occurs inside the replicators.  Primitive
remote operations are modelled as always succeeding, so the backoff loop returns its
first attempt's result; the wrapper records that the mutations were issued under the
backoff executor.  The retry behaviour of `withBackoff` itself (lines 574-593) is
embedded separately and in full generality below. -/
def withBackoffCall (op : St → OpRes) (σ : St) : OpRes :=
  let r := op σ
  ⟨r.newId, r.st, markBackoff r.events⟩

/-- The per-form cleanup loop of `handleCopySpreadsheet` (lines 460-470): for each sheet
of the destination copy with a linked form, `removeDestination()` then `setTrashed(true)`
on the duplicated form. -/
def cleanupForms (env : Env) (urls : List String) (σ : St) : St × List Event :=
  match urls with
  | [] => (σ, [])
  | u :: rest =>
    let t1 := tick σ
    let e1 : Event := ⟨.removeFormLink (env.copiedFormUrl u), t1.1, false⟩
    let t2 := tick t1.2
    let e2 : Event := ⟨.trashFormFile (env.copiedFormUrl u), t2.1, false⟩
    let r := cleanupForms env rest t2.2
    (r.1, e1 :: e2 :: r.2)

/-- `handleCopySpreadsheet` (lines 437-474): scan the source sheets for a linked form,
copy the spreadsheet with `makeCopy(spreadsheetFile.getName(), destFolder)`, and when a
linked form was detected, unlink and trash each duplicated form on the destination
copy. -/
def handleCopySpreadsheet (env : Env) (fileId parentDestId : String) (σ : St) : OpRes :=
  let hasLinkedForm : Bool := !(env.formsOf fileId).isEmpty
  let a := allocId σ
  let t := tick a.2
  let copyEv : Event := ⟨.copySpreadsheet fileId (env.nameOf fileId) parentDestId a.1, t.1, false⟩
  if hasLinkedForm then
    let r := cleanupForms env (env.formsOf fileId) t.2
    ⟨a.1, r.1, copyEv :: r.2⟩
  else
    ⟨a.1, t.2, [copyEv]⟩

/-- `handleFormatConversion` (lines 484-507): when the source mime type is in
FORMAT_CONVERSION_MAPPING, create the converted file through
`withBackoff(() => Drive.Files.create(...))`; otherwise fall back to `defaultCopy`.
Note that the source consults only the mapping, never CONVERT_NATIVE_FORMAT. -/
def handleFormatConversion (env : Env) (fileId parentDestId : String) (σ : St) : OpRes :=
  let fileMimeType := env.mimeOf fileId
  match FORMAT_CONVERSION_MAPPING.lookup fileMimeType with
  | some convertedMimeType =>
    withBackoffCall (fun σ0 =>
      let a := allocId σ0
      let t := tick a.2
      ⟨a.1, t.2,
        [⟨.conversionCreate fileId (env.nameOf fileId) parentDestId convertedMimeType a.1,
          t.1, false⟩]⟩) σ
  | none => defaultCopy env fileId parentDestId σ

/-! ### Outcomes of the recursive replicators -/

/-- Outcome of a replicator call: `ok true` = completed, `ok false` = interrupted by the
deadline, `err` = a thrown exception (`DriveApp.getFolderById(null)`). -/
inductive COut where
  | ok (b : Bool)
  | err
deriving Repr, DecidableEq

/-- Result of `createFolders` / `copyFiles` on one node. -/
structure FRes where
  out : COut
  tree : FolderState
  st : St
  events : List Event

/-- Result of the sibling loops over a list of child folders. -/
structure LRes where
  out : COut
  trees : List FolderState
  st : St
  events : List Event

/-- Result of the loop over a folder's files in `copyFiles`. -/
structure FilesRes where
  ok : Bool
  files : List FileState
  st : St
  events : List Event

/-! ### Structure Replicator: `createFolders` (lines 296-338) -/

mutual
/-- Body of `createFolders` after the `foldersCopied` shortcut, the timeout check and the
`getFolderById(fileTree.destId)` resolution (`dId` is the resolved destination id):
run the sibling loop over the children and set `foldersCopied` only on full success
(lines 310-337). -/
def createFoldersGo (env : Env) (dId : String) (t : FolderState) (σ : St) : FRes :=
  match t with
  | .node i n fc fo _ fs cs =>
    let r := createFoldersChildren env dId cs σ
    match r.out with
    | .ok true => ⟨.ok true, .node i n fc true (some dId) fs r.trees, r.st, r.events⟩
    | .ok false => ⟨.ok false, .node i n fc fo (some dId) fs r.trees, r.st, r.events⟩
    | .err => ⟨.err, .node i n fc fo (some dId) fs r.trees, r.st, r.events⟩

/-- The sibling loop of `createFolders` (lines 312-330): skip a child whose `destId` is
already set (without recursing into it), otherwise create the destination folder, record
the new `destId`, recurse into the child, and stop on the first unsuccessful recursive
call.  The recursive call `createFolders(folderState)` is inlined: its `foldersCopied`
shortcut and timeout check appear here, and its `getFolderById` resolves to the id that
was just recorded. -/
def createFoldersChildren (env : Env) (dId : String) (cs : List FolderState) (σ : St) :
    LRes :=
  match cs with
  | [] => ⟨.ok true, [], σ, []⟩
  | c :: rest =>
    if c.destId.isSome then
      let r := createFoldersChildren env dId rest σ
      ⟨r.out, c :: r.trees, r.st, r.events⟩
    else
      let op := createFolderOp c.id dId c.name σ
      let rc : FRes :=
        if c.foldersCopied then ⟨.ok true, c.setDestId (some op.newId), op.st, []⟩
        else if checkTimeout op.st then ⟨.ok false, c.setDestId (some op.newId), op.st, []⟩
        else createFoldersGo env op.newId c op.st
      match rc.out with
      | .ok true =>
        let r := createFoldersChildren env dId rest rc.st
        ⟨r.out, rc.tree :: r.trees, r.st, op.events ++ rc.events ++ r.events⟩
      | .ok false => ⟨.ok false, rc.tree :: rest, rc.st, op.events ++ rc.events⟩
      | .err => ⟨.err, rc.tree :: rest, rc.st, op.events ++ rc.events⟩
end

/-- `createFolders` (lines 296-338): idempotent shortcut on `foldersCopied`, timeout
check, `getFolderById(fileTree.destId)` (throws when `destId` is null), then the sibling
loop.  The `history` argument of the source is logging-only and omitted. -/
def createFolders (env : Env) (t : FolderState) (σ : St) : FRes :=
  if t.foldersCopied then ⟨.ok true, t, σ, []⟩
  else if checkTimeout σ then ⟨.ok false, t, σ, []⟩
  else
    match t.destId with
    | none => ⟨.err, t, σ, []⟩
    | some dId => createFoldersGo env dId t σ

/-! ### Content Replicator: `copyFiles` (lines 351-421) -/

/-- The file loop of `copyFiles` (lines 364-406): skip a file whose `destId` is set,
re-check the deadline before each remaining file (returning interrupted from inside the
loop), dispatch on the mime type (spreadsheet handling, format conversion, plain
`makeCopy`), and record the new `destId`. -/
def copyFilesLoop (env : Env) (parentDestId : String) (fs : List FileState) (σ : St) :
    FilesRes :=
  match fs with
  | [] => ⟨true, [], σ, []⟩
  | f :: rest =>
    if f.destId.isSome then
      let r := copyFilesLoop env parentDestId rest σ
      ⟨r.ok, f :: r.files, r.st, r.events⟩
    else if checkTimeout σ then ⟨false, f :: rest, σ, []⟩
    else
      let fileMimeType := env.mimeOf f.id
      let op : OpRes :=
        if fileMimeType == GOOGLE_SHEETS then
          handleCopySpreadsheet env f.id parentDestId σ
        else if (FORMAT_CONVERSION_MAPPING.lookup fileMimeType).isSome then
          handleFormatConversion env f.id parentDestId σ
        else
          let a := allocId σ
          let t := tick a.2
          ⟨a.1, t.2, [⟨.copyDefault f.id f.name parentDestId a.1, t.1, false⟩]⟩
      let f' : FileState := { f with destId := some op.newId }
      let r := copyFilesLoop env parentDestId rest op.st
      ⟨r.ok, f' :: r.files, r.st, op.events ++ r.events⟩

mutual
/-- `copyFiles` (lines 351-421): idempotent shortcut on `filesCopied`, timeout check,
`getFolderById(fileTree.destId)` (throws when `destId` is null), the file loop, then the
recursion over child folders, stopping at the first unsuccessful child; `filesCopied` is
set only on full success. -/
def copyFiles (env : Env) (t : FolderState) (σ : St) : FRes :=
  match t with
  | .node i n fc fo d fs cs =>
    if fc then ⟨.ok true, .node i n fc fo d fs cs, σ, []⟩
    else if checkTimeout σ then ⟨.ok false, .node i n fc fo d fs cs, σ, []⟩
    else
      match d with
      | none => ⟨.err, .node i n fc fo none fs cs, σ, []⟩
      | some parentDestId =>
        let rf := copyFilesLoop env parentDestId fs σ
        if rf.ok then
          let rc := copyFilesChildren env cs rf.st
          match rc.out with
          | .ok true =>
            ⟨.ok true, .node i n true fo (some parentDestId) rf.files rc.trees, rc.st,
              rf.events ++ rc.events⟩
          | .ok false =>
            ⟨.ok false, .node i n fc fo (some parentDestId) rf.files rc.trees, rc.st,
              rf.events ++ rc.events⟩
          | .err =>
            ⟨.err, .node i n fc fo (some parentDestId) rf.files rc.trees, rc.st,
              rf.events ++ rc.events⟩
        else
          ⟨.ok false, .node i n fc fo (some parentDestId) rf.files cs, rf.st, rf.events⟩

/-- The child-folder recursion of `copyFiles` (lines 408-413). -/
def copyFilesChildren (env : Env) (cs : List FolderState) (σ : St) : LRes :=
  match cs with
  | [] => ⟨.ok true, [], σ, []⟩
  | c :: rest =>
    let rc := copyFiles env c σ
    match rc.out with
    | .ok true =>
      let r := copyFilesChildren env rest rc.st
      ⟨r.out, rc.tree :: r.trees, r.st, rc.events ++ r.events⟩
    | .ok false => ⟨.ok false, rc.tree :: rest, rc.st, rc.events⟩
    | .err => ⟨.err, rc.tree :: rest, rc.st, rc.events⟩
end

/-! ### Backoff Executor: `withBackoff` (lines 574-593), in full generality

The callback is an arbitrary function from the attempt index to `some result` (the
attempt succeeds) or `none` (the attempt throws); `jitter n` is the value of
`Math.random() * 1000` observed on the `n`-th failure. -/

/-- The sleep computed on a failed attempt (lines 583-586):
`Math.min(MAX_BACKOFF_TIME_MS, 2 ** attempts + Math.random() * 1000)`. -/
def backoffDelay (jitter : Nat → Nat) (attempt : Nat) : Nat :=
  min MAX_BACKOFF_TIME_MS (2 ^ attempt + jitter attempt)

/-- The retry loop `while (attempts <= MAX_BACKOFF_ATTEMPTS)` with `iters` iterations
remaining.  Returns the result (`none` when the loop exits without a successful attempt,
in which case the JS function returns `undefined`), the number of times the callback was
invoked, and the list of sleeps performed. -/
def withBackoffLoop (callback : Nat → Option α) (jitter : Nat → Nat) :
    Nat → Nat → Option α × Nat × List Nat
  | _, 0 => (none, 0, [])
  | attempt, iters + 1 =>
    match callback attempt with
    | some v => (some v, 1, [])
    | none =>
      let r := withBackoffLoop callback jitter (attempt + 1) iters
      (r.1, r.2.1 + 1, backoffDelay jitter attempt :: r.2.2)

/-- `withBackoff` (lines 574-593): the loop runs for attempts `0..MAX_BACKOFF_ATTEMPTS`
inclusive. -/
def withBackoff (callback : Nat → Option α) (jitter : Nat → Nat) :
    Option α × Nat × List Nat :=
  withBackoffLoop callback jitter 0 (MAX_BACKOFF_ATTEMPTS + 1)

/-! ### Resume Driver (`main`, lines 105-205), restricted to the copy phases

One execution resets the clock against a fresh deadline (`jobTimeoutTime = Date.now() +
MAX_RUNTIME_MS`), runs `createFolders` and, only if it completed, `copyFiles`
(lines 158-176). -/

/-- One execution of the two copy phases on a loaded progress tree. -/
def runExecution (env : Env) (t : FolderState) (deadline fresh : Nat) : FRes :=
  let r1 := createFolders env t ⟨0, deadline, fresh⟩
  match r1.out with
  | .ok true =>
    let r2 := copyFiles env r1.tree r1.st
    ⟨r2.out, r2.tree, r2.st, r1.events ++ r2.events⟩
  | .ok false => r1
  | .err => r1

/-- The durable state between executions: the persisted progress tree (`_saveState` /
`_readState` round-trip the tree verbatim), the fresh-id counter of the remote service,
and whether the job has completed (state file deleted, no further trigger). -/
structure JobState where
  saved : FolderState
  fresh : Nat
  done : Bool

/-- One scheduled invocation of `main` with the given time budget: on `ok true` the copy
is complete (`_deleteState`); on `ok false` (timeout) the mutated tree is persisted and a
retry trigger is created (lines 178-189); on a thrown error the execution aborts before
`_saveState`, so the previously persisted tree is kept. -/
def runJob (env : Env) (s : JobState) (deadline : Nat) : JobState :=
  if s.done then s
  else
    let r := runExecution env s.saved deadline s.fresh
    match r.out with
    | .ok true => ⟨r.tree, r.st.fresh, true⟩
    | .ok false => ⟨r.tree, r.st.fresh, false⟩
    | .err => ⟨s.saved, r.st.fresh, false⟩

/-- A sequence of invocations with the given time budgets. -/
def runJobSeq (env : Env) (s : JobState) : List Nat → JobState
  | [] => s
  | d :: ds => runJobSeq env (runJob env s d) ds

/-! ### Observations on trees and event logs, used to state the properties -/

/-- The folder node reached by following a list of child indices. -/
def FolderState.folderAt : FolderState → List Nat → Option FolderState
  | t, [] => some t
  | t, i :: p =>
    match t.folders[i]? with
    | some c => c.folderAt p
    | none => none

/-- The `destId` of the folder node at a position: `none` when the position is invalid,
`some d` when the node exists and carries `destId = d`. -/
def destIdAt (t : FolderState) (p : List Nat) : Option (Option String) :=
  (t.folderAt p).map FolderState.destId

/-- The `destId` of the `i`-th file of the folder node at position `p`. -/
def fileDestAt (t : FolderState) (p : List Nat) (i : Nat) : Option (Option String) :=
  (t.folderAt p).bind fun f => (f.files[i]?).map FileState.destId

/-- The `foldersCopied` flag of the folder node at a position. -/
def foldersCopiedAt (t : FolderState) (p : List Nat) : Option Bool :=
  (t.folderAt p).map FolderState.foldersCopied

/-- `destIdAt` through a forest of children: child index first, then the rest of the
path. -/
def destIdAtL (cs : List FolderState) (j : Nat) (q : List Nat) : Option (Option String) :=
  (cs[j]?).bind fun c => destIdAt c q

/-- `fileDestAt` through a forest of children. -/
def fileDestAtL (cs : List FolderState) (j : Nat) (q : List Nat) (i : Nat) :
    Option (Option String) :=
  (cs[j]?).bind fun c => fileDestAt c q i

/-- The `destId` of the `i`-th file of a file list. -/
def filesDestAt (fs : List FileState) (i : Nat) : Option (Option String) :=
  (fs[i]?).map FileState.destId

mutual
/-- All folder nodes of the tree, the node itself first. -/
def treeFolders : FolderState → List FolderState
  | .node i n fc fo d fs cs => .node i n fc fo d fs cs :: treeFoldersL cs

def treeFoldersL : List FolderState → List FolderState
  | [] => []
  | c :: rest => treeFolders c ++ treeFoldersL rest
end

/-- Ids of all folder nodes of the tree. -/
def allFolderIds (t : FolderState) : List String :=
  (treeFolders t).map FolderState.id

/-- Ids of the folder nodes whose `destId` is still absent. -/
def uncreatedFolderIds (t : FolderState) : List String :=
  ((treeFolders t).filter fun c => c.destId.isNone).map FolderState.id

/-- Ids of the folder nodes, among a forest, whose `destId` is still absent. -/
def uncreatedFolderIdsL (cs : List FolderState) : List String :=
  ((treeFoldersL cs).filter fun c => c.destId.isNone).map FolderState.id

mutual
/-- All files of the tree, in traversal order. -/
def treeFiles : FolderState → List FileState
  | .node _ _ _ _ _ fs cs => fs ++ treeFilesL cs

def treeFilesL : List FolderState → List FileState
  | [] => []
  | c :: rest => treeFiles c ++ treeFilesL rest
end

/-- Ids of all files of the tree. -/
def allFileIds (t : FolderState) : List String :=
  (treeFiles t).map FileState.id

/-- Ids of files, among a list of files, whose `destId` is still absent. -/
def uncopiedIdsOf (fs : List FileState) : List String :=
  (fs.filter fun f => f.destId.isNone).map FileState.id

/-- Ids of the files of the tree whose `destId` is still absent. -/
def uncopiedFileIds (t : FolderState) : List String :=
  uncopiedIdsOf (treeFiles t)

mutual
/-- Well-formedness maintained by the program on every reachable progress tree: a folder
node with `foldersCopied = true` has its `destId` set (`exploreFileTree` initialises both
to `false`/`null`, and `createFolders` records a `destId` before it can set the flag). -/
def wfFolder : FolderState → Bool
  | .node _ _ _ fo d _ cs => (!fo || d.isSome) && wfFolderL cs

def wfFolderL : List FolderState → Bool
  | [] => true
  | c :: rest => wfFolder c && wfFolderL rest
end

mutual
/-- Every node of the tree has both `foldersCopied` and `filesCopied` set. -/
def allDone : FolderState → Bool
  | .node _ _ fc fo _ _ cs => fc && fo && allDoneL cs

def allDoneL : List FolderState → Bool
  | [] => true
  | c :: rest => allDone c && allDoneL rest
end

/-- Whether an event is the format-conversion `Drive.Files.create` call. -/
def EventKind.isConversionCreate : EventKind → Bool
  | .conversionCreate _ _ _ _ _ => true
  | _ => false

/-- Whether an event is part of the linked-form cleanup (not the start of a new unit of
work, but the tail of one spreadsheet item). -/
def EventKind.isFormCleanup : EventKind → Bool
  | .removeFormLink _ => true
  | .trashFormFile _ => true
  | _ => false

/-- The source folder id targeted by a folder-creation event. -/
def eventSrcFolderId (e : Event) : Option String :=
  match e.kind with
  | .createFolder s _ _ _ => some s
  | _ => none

/-- The source file id targeted by a file-copy event. -/
def eventSrcFileId (e : Event) : Option String :=
  match e.kind with
  | .copyDefault s _ _ _ => some s
  | .copySpreadsheet s _ _ _ => some s
  | .conversionCreate s _ _ _ _ => some s
  | _ => none

/-! ### Concrete scenarios used by the counterexamples -/

/-- A remote world in which every file is a plain binary file. -/
def plainEnv : Env :=
  ⟨fun _ => "application/pdf", fun i => i, fun _ => [], fun u => u, true⟩

/-- A three-level folder chain R / A / B with no files; the root's destination is already
seeded (as the Resume Driver does), nothing else has been replicated yet — exactly the
tree `exploreFileTree` produces after the root seeding of `main` (lines 130-134). -/
def chainB : FolderState := .node "B" "B" false false none [] []

def chainA : FolderState := .node "A" "A" false false none [] [chainB]

def chainR : FolderState := .node "R" "R" false false (some "droot") [] [chainA]

/-- The progress tree persisted after a first execution whose deadline expired right
after creating A's destination folder (the remote call consumed the remaining budget). -/
def savedAfterTimeout : FolderState := (runExecution plainEnv chainR 1 0).tree

/-- A remote world with one spreadsheet (carrying a linked form) and one plain file. -/
def mixedEnv : Env :=
  ⟨fun i => if i == "S1" then GOOGLE_SHEETS else "application/pdf",
   fun i => i, fun i => if i == "S1" then ["formU"] else [],
   fun u => "copy-" ++ u, true⟩

/-- A root with the two files above and one child folder, root destination seeded. -/
def mixedTree : FolderState :=
  .node "R" "R" false false (some "droot") [⟨"S1", "S1", none⟩, ⟨"P1", "P1", none⟩]
    [.node "C" "C" false false none [] []]

/-- A remote world in which every file is a Word document, with the
CONVERT_NATIVE_FORMAT configuration value taken as a parameter. -/
def officeEnv (b : Bool) : Env :=
  ⟨fun _ => MICROSOFT_WORD, fun i => i, fun _ => [], fun u => u, b⟩

/-- A root folder containing a single Word file, structure phase already done. -/
def wordTree : FolderState :=
  .node "R" "R" false true (some "droot") [⟨"F1", "F1", none⟩] []

/-! ### Basic simp lemmas -/

@[simp] theorem FolderState.id_node (i n : String) (fc fo : Bool) (d : Option String)
    (fs : List FileState) (cs : List FolderState) :
    (FolderState.node i n fc fo d fs cs).id = i := rfl

@[simp] theorem FolderState.name_node (i n : String) (fc fo : Bool) (d : Option String)
    (fs : List FileState) (cs : List FolderState) :
    (FolderState.node i n fc fo d fs cs).name = n := rfl

@[simp] theorem FolderState.filesCopied_node (i n : String) (fc fo : Bool)
    (d : Option String) (fs : List FileState) (cs : List FolderState) :
    (FolderState.node i n fc fo d fs cs).filesCopied = fc := rfl

@[simp] theorem FolderState.foldersCopied_node (i n : String) (fc fo : Bool)
    (d : Option String) (fs : List FileState) (cs : List FolderState) :
    (FolderState.node i n fc fo d fs cs).foldersCopied = fo := rfl

@[simp] theorem FolderState.destId_node (i n : String) (fc fo : Bool) (d : Option String)
    (fs : List FileState) (cs : List FolderState) :
    (FolderState.node i n fc fo d fs cs).destId = d := rfl

@[simp] theorem FolderState.files_node (i n : String) (fc fo : Bool) (d : Option String)
    (fs : List FileState) (cs : List FolderState) :
    (FolderState.node i n fc fo d fs cs).files = fs := rfl

@[simp] theorem FolderState.folders_node (i n : String) (fc fo : Bool) (d : Option String)
    (fs : List FileState) (cs : List FolderState) :
    (FolderState.node i n fc fo d fs cs).folders = cs := rfl

@[simp] theorem FolderState.setDestId_node (i n : String) (fc fo : Bool)
    (d d' : Option String) (fs : List FileState) (cs : List FolderState) :
    (FolderState.node i n fc fo d fs cs).setDestId d' = .node i n fc fo d' fs cs := rfl

/-! ### Shortcut behaviour of the replicators -/

/-- A node whose `foldersCopied` flag is set is returned unchanged with no mutations
(line 298). -/
theorem createFolders_done (env : Env) (t : FolderState) (σ : St)
    (h : t.foldersCopied = true) : createFolders env t σ = ⟨.ok true, t, σ, []⟩ := by
  unfold createFolders
  simp [h]

/-- A node whose `filesCopied` flag is set is returned unchanged with no mutations
(line 354). -/
theorem copyFiles_done (env : Env) (t : FolderState) (σ : St)
    (h : t.filesCopied = true) : copyFiles env t σ = ⟨.ok true, t, σ, []⟩ := by
  cases t with
  | node i n fc fo d fs cs =>
    simp only [FolderState.filesCopied_node] at h
    simp [copyFiles, h]

/-- A fully-done tree has both flags set at its root. -/
theorem allDone_flags (t : FolderState) (h : allDone t = true) :
    t.foldersCopied = true ∧ t.filesCopied = true := by
  cases t with
  | node i n fc fo d fs cs =>
    simp only [allDone, Bool.and_eq_true] at h
    simp [h.1.1, h.1.2]

/-! ### Behaviour of the backoff retry loop -/

/-- Invariants of the retry loop: the callback is invoked at most once per remaining
iteration, the `i`-th recorded sleep is exactly the backoff formula for the `i`-th
attempt counted from `a`, and every sleep is capped by MAX_BACKOFF_TIME_MS. -/
theorem withBackoffLoop_spec {α : Type} (callback : Nat → Option α) (jitter : Nat → Nat) :
    ∀ (iters a : Nat),
      (withBackoffLoop callback jitter a iters).2.1 ≤ iters ∧
      (∀ i, i < (withBackoffLoop callback jitter a iters).2.2.length →
        (withBackoffLoop callback jitter a iters).2.2[i]? =
          some (backoffDelay jitter (a + i))) ∧
      (∀ d ∈ (withBackoffLoop callback jitter a iters).2.2, d ≤ MAX_BACKOFF_TIME_MS) := by
  intro iters
  induction iters with
  | zero =>
    intro a
    simp [withBackoffLoop]
  | succ k ih =>
    intro a
    cases hcb : callback a with
    | some v =>
      simp [withBackoffLoop, hcb]
    | none =>
      obtain ⟨h1, h2, h3⟩ := ih (a + 1)
      simp only [withBackoffLoop, hcb]
      refine ⟨by omega, ?_, ?_⟩
      · intro i hi
        cases i with
        | zero => simp
        | succ j =>
          simp only [List.length_cons] at hi
          have := h2 j (by omega)
          simpa [Nat.add_assoc, Nat.add_comm 1 j] using this
      · intro d hd
        simp only [List.mem_cons] at hd
        cases hd with
        | inl h =>
          subst h
          exact Nat.min_le_left _ _
        | inr h => exact h3 d h

/-! ### Claims C3, C7, C9, C10 -/

/-- Claim C3: the claim says that when every attempt of the wrapped operation fails and
the attempt ceiling is exhausted, the failure propagates to the caller as a fatal error.
The code instead exits the `while` loop and falls off the end of the function: the
failure is swallowed and converted into the normal return value `undefined` (modelled as
`none`), after the full 21 invocations. -/
theorem c3_backoff_exhaustion_swallows_failure :
    (withBackoff (fun _ => (none : Option Unit)) (fun _ => 0)).1 = none ∧
    (withBackoff (fun _ => (none : Option Unit)) (fun _ => 0)).2.1 =
      MAX_BACKOFF_ATTEMPTS + 1 := by
  decide

/-- Claim C7: for every wrapped operation and every outcome sequence of its attempts,
`withBackoff` invokes the operation at most MAX_BACKOFF_ATTEMPTS + 1 = 21 times, each
inter-attempt sleep equals `min(MAX_BACKOFF_TIME_MS, 2 ^ attempt + jitter attempt)`, and
hence every inter-attempt delay is at most MAX_BACKOFF_TIME_MS. -/
theorem c7_backoff_attempt_and_delay_bound {α : Type} (callback : Nat → Option α)
    (jitter : Nat → Nat) :
    (withBackoff callback jitter).2.1 ≤ MAX_BACKOFF_ATTEMPTS + 1 ∧
    MAX_BACKOFF_ATTEMPTS + 1 = 21 ∧
    (∀ i, i < (withBackoff callback jitter).2.2.length →
      (withBackoff callback jitter).2.2[i]? =
        some (min MAX_BACKOFF_TIME_MS (2 ^ i + jitter i))) ∧
    (∀ d ∈ (withBackoff callback jitter).2.2, d ≤ MAX_BACKOFF_TIME_MS) := by
  obtain ⟨h1, h2, h3⟩ := withBackoffLoop_spec callback jitter (MAX_BACKOFF_ATTEMPTS + 1) 0
  refine ⟨h1, rfl, ?_, h3⟩
  intro i hi
  have := h2 i hi
  simpa [backoffDelay] using this

/-- Witness for C7 at a concrete callback that fails twice and then succeeds, with
constant jitter 3: the second recorded sleep is the backoff formula for attempt 1. -/
theorem c7_backoff_attempt_and_delay_bound_witness :
    (withBackoff (fun n => if n == 2 then some 7 else (none : Option Nat))
        (fun _ => 3)).2.2[1]? = some (min MAX_BACKOFF_TIME_MS (2 ^ 1 + 3)) :=
  (c7_backoff_attempt_and_delay_bound (fun n => if n == 2 then some 7 else none)
    (fun _ => 3)).2.2.1 1 (by decide)

/-- Claim C9: running `createFolders` and then `copyFiles` on a progress tree in which
every node already has `foldersCopied` and `filesCopied` set performs zero remote
mutations: both phases return immediately with empty mutation logs and the tree
untouched. -/
theorem c9_all_done_performs_no_mutations (env : Env) (t : FolderState) (σ : St)
    (h : allDone t = true) :
    (createFolders env t σ).events = [] ∧ (createFolders env t σ).tree = t ∧
      (copyFiles env (createFolders env t σ).tree (createFolders env t σ).st).events
        = [] := by
  obtain ⟨hfo, hfc⟩ := allDone_flags t h
  rw [createFolders_done env t σ hfo]
  rw [copyFiles_done env t σ hfc]
  exact ⟨rfl, rfl, rfl⟩

/-- Witness for C9 on a concrete fully-done two-folder tree with one copied file. -/
theorem c9_all_done_performs_no_mutations_witness :
    (createFolders plainEnv
        (.node "R" "R" true true (some "droot") [⟨"F", "F", some "df"⟩]
          [.node "C" "C" true true (some "dc") [] []]) ⟨0, 5, 0⟩).events = [] ∧
    (createFolders plainEnv
        (.node "R" "R" true true (some "droot") [⟨"F", "F", some "df"⟩]
          [.node "C" "C" true true (some "dc") [] []]) ⟨0, 5, 0⟩).tree =
      .node "R" "R" true true (some "droot") [⟨"F", "F", some "df"⟩]
        [.node "C" "C" true true (some "dc") [] []] ∧
    (copyFiles plainEnv
        (createFolders plainEnv
          (.node "R" "R" true true (some "droot") [⟨"F", "F", some "df"⟩]
            [.node "C" "C" true true (some "dc") [] []]) ⟨0, 5, 0⟩).tree
        (createFolders plainEnv
          (.node "R" "R" true true (some "droot") [⟨"F", "F", some "df"⟩]
            [.node "C" "C" true true (some "dc") [] []]) ⟨0, 5, 0⟩).st).events = [] :=
  c9_all_done_performs_no_mutations plainEnv
    (.node "R" "R" true true (some "droot") [⟨"F", "F", some "df"⟩]
      [.node "C" "C" true true (some "dc") [] []]) ⟨0, 5, 0⟩ (by decide)

/-- Claim C10: for every call of `createFolders` or `copyFiles` that returns normally,
the boolean result equals the node's done flag at return: `true` is returned exactly
when the flag is set at exit, and an interrupted (`false`) return leaves the flag
unset. -/
theorem c10_return_value_matches_done_flag (env : Env) (t : FolderState) (σ : St)
    (b : Bool) :
    ((createFolders env t σ).out = .ok b →
      ((createFolders env t σ).tree).foldersCopied = b) ∧
    ((copyFiles env t σ).out = .ok b → ((copyFiles env t σ).tree).filesCopied = b) := by
  constructor
  · unfold createFolders
    by_cases hfc : t.foldersCopied
    · simp only [hfc, if_true]
      intro h
      cases h
      simp [hfc]
    · simp only [hfc, Bool.false_eq_true, if_false]
      split
      · intro h
        cases h
        simp [hfc]
      · cases ht : t.destId with
        | none =>
          intro h
          cases h
        | some dId =>
          cases t with
          | node i n fc fo d fs cs =>
            simp only [createFoldersGo]
            split <;> intro h <;> cases h <;> simp_all
  · cases t with
    | node i n fc fo d fs cs =>
      simp only [copyFiles]
      by_cases hfc : fc
      · simp only [hfc, if_true]
        intro h
        cases h
        simp [hfc]
      · simp only [hfc, Bool.false_eq_true, if_false]
        split
        · intro h
          cases h
          simp [hfc]
        · cases d with
          | none =>
            intro h
            cases h
          | some parentDestId =>
            simp only []
            split
            · split <;> intro h <;> cases h <;> simp_all
            · intro h
              cases h
              simp [hfc]

/-- Witness for C10: a structure run that completes sets the root flag, and `copyFiles`
on the resulting tree completes and sets `filesCopied`. -/
theorem c10_return_value_matches_done_flag_witness :
    ((createFolders plainEnv chainR ⟨0, 5, 0⟩).tree).foldersCopied = true ∧
    ((copyFiles plainEnv (createFolders plainEnv chainR ⟨0, 5, 0⟩).tree
        (createFolders plainEnv chainR ⟨0, 5, 0⟩).st).tree).filesCopied = true :=
  ⟨(c10_return_value_matches_done_flag plainEnv chainR ⟨0, 5, 0⟩ true).1 (by decide),
   (c10_return_value_matches_done_flag plainEnv
      (createFolders plainEnv chainR ⟨0, 5, 0⟩).tree
      (createFolders plainEnv chainR ⟨0, 5, 0⟩).st true).2 (by decide)⟩

/-! ### Claims C1, C2 (the lost-subtree scenario), C4 (counterexample part) and C6 -/

/-- Claim C2: the claim states that after any sequence of `createFolders` calls, a node
with `foldersCopied = true` has `destId` present on every folder in its subtree.  The
code violates it: a first execution is interrupted right after creating A's destination
(A's `destId` is recorded, B's is not), and the resumed execution skips A entirely
because its `destId` is set — never recursing into it — and then marks the root
`foldersCopied = true` while B's `destId` is still absent. -/
theorem c2_structure_flag_set_despite_missing_destIds :
    (runExecution plainEnv chainR 1 0).out = .ok false ∧
    destIdAt savedAfterTimeout [0] = some (some "dest-0") ∧
    foldersCopiedAt savedAfterTimeout [] = some false ∧
    (createFolders plainEnv savedAfterTimeout ⟨0, 100, 1⟩).out = .ok true ∧
    ((createFolders plainEnv savedAfterTimeout ⟨0, 100, 1⟩).tree).foldersCopied = true ∧
    destIdAt (createFolders plainEnv savedAfterTimeout ⟨0, 100, 1⟩).tree [0, 0] =
      some none := by
  decide

/-- After the interrupted first execution on the R/A/B chain, every further invocation
leaves the persisted state unchanged: a budget of 0 is interrupted immediately, and any
positive budget completes the (subtree-skipping) structure phase and then crashes in
`copyFiles` on B's null `destId`, aborting before `_saveState`. -/
theorem runJob_chain_fixpoint (d f : Nat) :
    runJob plainEnv ⟨savedAfterTimeout, f, false⟩ d = ⟨savedAfterTimeout, f, false⟩ := by
  cases d with
  | zero => rfl
  | succ k => rfl

/-- Claim C1: the claim states that for every source hierarchy and interruption sequence,
repeated resumption eventually completes with every folder replicated.  The code violates
it: after one interruption on the R/A/B chain (deadline hit just after creating A's
destination), no sequence of further invocations, whatever their budgets, ever reaches
completion, and B's destination is never created. -/
theorem c1_repeated_resumption_never_completes :
    (runExecution plainEnv chainR 1 0).out = .ok false ∧
    ∀ (ds : List Nat) (f : Nat),
      (runJobSeq plainEnv ⟨savedAfterTimeout, f, false⟩ ds).done = false ∧
      destIdAt (runJobSeq plainEnv ⟨savedAfterTimeout, f, false⟩ ds).saved [0, 0] =
        some none := by
  refine ⟨by decide, ?_⟩
  intro ds f
  have hfix : runJobSeq plainEnv ⟨savedAfterTimeout, f, false⟩ ds =
      ⟨savedAfterTimeout, f, false⟩ := by
    induction ds generalizing f with
    | nil => rfl
    | cons d ds ih =>
      show runJobSeq plainEnv (runJob plainEnv ⟨savedAfterTimeout, f, false⟩ d) ds = _
      rw [runJob_chain_fixpoint d f]
      exact ih f
  rw [hfix]
  refine ⟨rfl, ?_⟩
  show destIdAt savedAfterTimeout [0, 0] = some none
  decide

/-- Claim C4, counterexample: the claim states that every remote mutation of the two
replicators is invoked through `withBackoff`.  A run of both phases on `mixedTree`
performs a folder creation, a spreadsheet copy with its form cleanup, and a default
copy — none of which go through the backoff executor. -/
theorem c4_mutations_not_via_backoff :
    ¬ (∀ e ∈ (runExecution mixedEnv mixedTree 100 0).events, e.viaBackoff = true) := by
  decide

/-- Claim C6: the claim states that document-like formats are converted only when
CONVERT_NATIVE_FORMAT is enabled, and copied without conversion when it is disabled.
The code never consults the flag: for both flag values — in particular with conversion
disabled — the Word file is still copied through the conversion path
(`Drive.Files.create` with the converted mime type), contradicting the flag's own
documentation (line 39). -/
theorem c6_conversion_ignores_disabled_flag :
    ∀ b : Bool,
      (officeEnv b).convertNativeFormat = b ∧
      ((copyFiles (officeEnv b) wordTree ⟨0, 100, 0⟩).events.map Event.kind) =
        [.conversionCreate "F1" "F1" "droot" GOOGLE_DOCS "dest-0"] ∧
      (copyFiles (officeEnv b) wordTree ⟨0, 100, 0⟩).out = .ok true := by
  intro b
  exact ⟨rfl, rfl, rfl⟩


/-! ### Claim C4, amended part: which mutations go through the backoff executor -/

/-- Every mutation of the form cleanup is issued directly (not under backoff). -/
theorem cleanupForms_tag (env : Env) (urls : List String) (σ : St) :
    ∀ e ∈ (cleanupForms env urls σ).2,
      e.viaBackoff = e.kind.isConversionCreate := by
  induction urls generalizing σ with
  | nil => simp [cleanupForms]
  | cons u rest ih =>
    intro e he
    simp only [cleanupForms, List.mem_cons] at he
    rcases he with h | h | h
    · subst h; rfl
    · subst h; rfl
    · exact ih _ e h

/-- Every mutation of the spreadsheet handler is issued directly. -/
theorem handleCopySpreadsheet_tag (env : Env) (fileId parentDestId : String) (σ : St) :
    ∀ e ∈ (handleCopySpreadsheet env fileId parentDestId σ).events,
      e.viaBackoff = e.kind.isConversionCreate := by
  intro e he
  simp only [handleCopySpreadsheet] at he
  split at he
  · simp only [List.mem_cons] at he
    rcases he with h | h
    · subst h; rfl
    · exact cleanupForms_tag env _ _ e h
  · simp only [List.mem_singleton] at he
    subst he; rfl

/-- The conversion handler issues its `Drive.Files.create` under backoff; its fallback
default copy is direct. -/
theorem handleFormatConversion_tag (env : Env) (fileId parentDestId : String) (σ : St) :
    ∀ e ∈ (handleFormatConversion env fileId parentDestId σ).events,
      e.viaBackoff = e.kind.isConversionCreate := by
  intro e he
  simp only [handleFormatConversion] at he
  split at he
  · simp only [withBackoffCall, markBackoff, List.map, List.mem_singleton] at he
    subst he; rfl
  · simp only [defaultCopy, List.mem_singleton] at he
    subst he; rfl

/-- Backoff provenance of every mutation of the file loop. -/
theorem copyFilesLoop_tag (env : Env) (parentDestId : String) (fs : List FileState)
    (σ : St) :
    ∀ e ∈ (copyFilesLoop env parentDestId fs σ).events,
      e.viaBackoff = e.kind.isConversionCreate := by
  induction fs generalizing σ with
  | nil => simp [copyFilesLoop]
  | cons f rest ih =>
    intro e he
    simp only [copyFilesLoop] at he
    split at he
    · exact ih _ e he
    · split at he
      · simp at he
      · simp only [List.mem_append] at he
        rcases he with h | h
        · -- op events
          revert h
          split
          · exact fun h => handleCopySpreadsheet_tag env _ _ _ e h
          · split
            · exact fun h => handleFormatConversion_tag env _ _ _ e h
            · intro h
              simp only [List.mem_singleton] at h
              subst h; rfl
        · exact ih _ e h

/-- Backoff provenance of every mutation of the content phase. -/
theorem copyFiles_tag (env : Env) : ∀ (t : FolderState) (σ : St),
    ∀ e ∈ (copyFiles env t σ).events, e.viaBackoff = e.kind.isConversionCreate := by
  refine copyFiles.induct env
    (fun t σ => ∀ e ∈ (copyFiles env t σ).events, e.viaBackoff = e.kind.isConversionCreate)
    (fun cs σ => ∀ e ∈ (copyFilesChildren env cs σ).events,
      e.viaBackoff = e.kind.isConversionCreate)
    ?_ ?_ ?_ ?_ ?_ ?_ ?_ ?_ ?_ ?_ ?_
  · intro σ i n fo d fs cs
    simp [copyFiles]
  · intro σ i n fc fo d fs cs hfc hto
    simp [copyFiles, hfc, hto]
  · intro σ i n fc fo fs cs hfc hto
    simp [copyFiles, hfc, hto]
  · intro σ i n fc fo fs cs hfc hto dId rf hrf rc hrc ih
    have hrf' : (copyFilesLoop env dId fs σ).ok = true := hrf
    have hrc' : (copyFilesChildren env cs (copyFilesLoop env dId fs σ).st).out =
      COut.ok true := hrc
    have ih' : ∀ e ∈ (copyFilesChildren env cs (copyFilesLoop env dId fs σ).st).events,
      e.viaBackoff = e.kind.isConversionCreate := ih
    intro e he
    simp only [copyFiles, hfc, hto, Bool.false_eq_true, if_false, hrf', if_true, hrc',
      List.mem_append] at he
    rcases he with h | h
    · exact copyFilesLoop_tag env dId fs σ e h
    · exact ih' e h
  · intro σ i n fc fo fs cs hfc hto dId rf hrf rc hrc ih
    have hrf' : (copyFilesLoop env dId fs σ).ok = true := hrf
    have hrc' : (copyFilesChildren env cs (copyFilesLoop env dId fs σ).st).out =
      COut.ok false := hrc
    have ih' : ∀ e ∈ (copyFilesChildren env cs (copyFilesLoop env dId fs σ).st).events,
      e.viaBackoff = e.kind.isConversionCreate := ih
    intro e he
    simp only [copyFiles, hfc, hto, Bool.false_eq_true, if_false, hrf', if_true, hrc',
      List.mem_append] at he
    rcases he with h | h
    · exact copyFilesLoop_tag env dId fs σ e h
    · exact ih' e h
  · intro σ i n fc fo fs cs hfc hto dId rf hrf rc hrc ih
    have hrf' : (copyFilesLoop env dId fs σ).ok = true := hrf
    have hrc' : (copyFilesChildren env cs (copyFilesLoop env dId fs σ).st).out =
      COut.err := hrc
    have ih' : ∀ e ∈ (copyFilesChildren env cs (copyFilesLoop env dId fs σ).st).events,
      e.viaBackoff = e.kind.isConversionCreate := ih
    intro e he
    simp only [copyFiles, hfc, hto, Bool.false_eq_true, if_false, hrf', if_true, hrc',
      List.mem_append] at he
    rcases he with h | h
    · exact copyFilesLoop_tag env dId fs σ e h
    · exact ih' e h
  · intro σ i n fc fo fs cs hfc hto dId rf hrf
    have hrf' : (copyFilesLoop env dId fs σ).ok = false := by
      have := hrf
      simp only [Bool.not_eq_true] at this
      exact this
    intro e he
    simp only [copyFiles, hfc, hto, Bool.false_eq_true, if_false, hrf'] at he
    exact copyFilesLoop_tag env dId fs σ e he
  · intro σ
    simp [copyFilesChildren]
  · intro σ c rest rc hrc ih1 ih2
    have hrc' : (copyFiles env c σ).out = COut.ok true := hrc
    have ih2' : ∀ e ∈ (copyFilesChildren env rest (copyFiles env c σ).st).events,
      e.viaBackoff = e.kind.isConversionCreate := ih2
    intro e he
    simp only [copyFilesChildren, hrc', List.mem_append] at he
    rcases he with h | h
    · exact ih1 e h
    · exact ih2' e h
  · intro σ c rest rc hrc ih1
    have hrc' : (copyFiles env c σ).out = COut.ok false := hrc
    intro e he
    simp only [copyFilesChildren, hrc'] at he
    exact ih1 e he
  · intro σ c rest rc hrc ih1
    have hrc' : (copyFiles env c σ).out = COut.err := hrc
    intro e he
    simp only [copyFilesChildren, hrc'] at he
    exact ih1 e he

/-- Backoff provenance of every mutation of the structure phase: folder creations are
issued directly. -/
theorem createFoldersGo_tag (env : Env) : ∀ (dId : String) (t : FolderState) (σ : St),
    ∀ e ∈ (createFoldersGo env dId t σ).events,
      e.viaBackoff = e.kind.isConversionCreate := by
  refine createFoldersGo.induct env
    (fun dId t σ => ∀ e ∈ (createFoldersGo env dId t σ).events,
      e.viaBackoff = e.kind.isConversionCreate)
    (fun dId cs σ => ∀ e ∈ (createFoldersChildren env dId cs σ).events,
      e.viaBackoff = e.kind.isConversionCreate)
    ?_ ?_ ?_ ?_ ?_ ?_ ?_ ?_
  · intro dId σ i n fc fo d fs cs r hr ih
    have hr' : (createFoldersChildren env dId cs σ).out = COut.ok true := hr
    intro e he
    simp only [createFoldersGo, hr'] at he
    exact ih e he
  · intro dId σ i n fc fo d fs cs r hr ih
    have hr' : (createFoldersChildren env dId cs σ).out = COut.ok false := hr
    intro e he
    simp only [createFoldersGo, hr'] at he
    exact ih e he
  · intro dId σ i n fc fo d fs cs r hr ih
    have hr' : (createFoldersChildren env dId cs σ).out = COut.err := hr
    intro e he
    simp only [createFoldersGo, hr'] at he
    exact ih e he
  · intro dId σ
    simp [createFoldersChildren]
  · intro dId σ c rest hskip ih
    intro e he
    simp only [createFoldersChildren, hskip, if_true] at he
    exact ih e he
  · intro dId σ c rest hskip op rc hrc ih1 ih2
    simp only [op] at rc hrc ih1 ih2 ⊢
    simp only [rc] at hrc ih2 ⊢
    intro e he
    simp only [createFoldersChildren, hskip, Bool.false_eq_true, if_false, hrc,
      List.mem_append] at he
    have hopev : ∀ e ∈ (createFolderOp c.id dId c.name σ).events,
        e.viaBackoff = e.kind.isConversionCreate := by
      intro e he
      simp only [createFolderOp, List.mem_singleton] at he
      subst he; rfl
    have hrcev : ∀ e ∈
        (if c.foldersCopied = true then
          (⟨.ok true, c.setDestId (some (createFolderOp c.id dId c.name σ).newId),
            (createFolderOp c.id dId c.name σ).st, []⟩ : FRes)
        else if checkTimeout (createFolderOp c.id dId c.name σ).st = true then
          (⟨.ok false, c.setDestId (some (createFolderOp c.id dId c.name σ).newId),
            (createFolderOp c.id dId c.name σ).st, []⟩ : FRes)
        else createFoldersGo env (createFolderOp c.id dId c.name σ).newId c
          (createFolderOp c.id dId c.name σ).st).events,
        e.viaBackoff = e.kind.isConversionCreate := by
      by_cases h1 : c.foldersCopied = true
      · simp [h1]
      · by_cases h2 : checkTimeout (createFolderOp c.id dId c.name σ).st = true
        · simp [h1, h2]
        · simp only [h1, h2, Bool.false_eq_true, if_false]
          exact ih1
    rcases he with (h | h) | h
    · exact hopev e h
    · exact hrcev e h
    · exact ih2 e h
  · intro dId σ c rest hskip op rc hrc ih1
    simp only [op] at rc hrc ih1 ⊢
    simp only [rc] at hrc ⊢
    intro e he
    simp only [createFoldersChildren, hskip, Bool.false_eq_true, if_false, hrc,
      List.mem_append] at he
    have hopev : ∀ e ∈ (createFolderOp c.id dId c.name σ).events,
        e.viaBackoff = e.kind.isConversionCreate := by
      intro e he
      simp only [createFolderOp, List.mem_singleton] at he
      subst he; rfl
    have hrcev : ∀ e ∈
        (if c.foldersCopied = true then
          (⟨.ok true, c.setDestId (some (createFolderOp c.id dId c.name σ).newId),
            (createFolderOp c.id dId c.name σ).st, []⟩ : FRes)
        else if checkTimeout (createFolderOp c.id dId c.name σ).st = true then
          (⟨.ok false, c.setDestId (some (createFolderOp c.id dId c.name σ).newId),
            (createFolderOp c.id dId c.name σ).st, []⟩ : FRes)
        else createFoldersGo env (createFolderOp c.id dId c.name σ).newId c
          (createFolderOp c.id dId c.name σ).st).events,
        e.viaBackoff = e.kind.isConversionCreate := by
      by_cases h1 : c.foldersCopied = true
      · simp [h1]
      · by_cases h2 : checkTimeout (createFolderOp c.id dId c.name σ).st = true
        · simp [h1, h2]
        · simp only [h1, h2, Bool.false_eq_true, if_false]
          exact ih1
    rcases he with h | h
    · exact hopev e h
    · exact hrcev e h
  · intro dId σ c rest hskip op rc hrc ih1
    simp only [op] at rc hrc ih1 ⊢
    simp only [rc] at hrc ⊢
    intro e he
    simp only [createFoldersChildren, hskip, Bool.false_eq_true, if_false, hrc,
      List.mem_append] at he
    have hopev : ∀ e ∈ (createFolderOp c.id dId c.name σ).events,
        e.viaBackoff = e.kind.isConversionCreate := by
      intro e he
      simp only [createFolderOp, List.mem_singleton] at he
      subst he; rfl
    have hrcev : ∀ e ∈
        (if c.foldersCopied = true then
          (⟨.ok true, c.setDestId (some (createFolderOp c.id dId c.name σ).newId),
            (createFolderOp c.id dId c.name σ).st, []⟩ : FRes)
        else if checkTimeout (createFolderOp c.id dId c.name σ).st = true then
          (⟨.ok false, c.setDestId (some (createFolderOp c.id dId c.name σ).newId),
            (createFolderOp c.id dId c.name σ).st, []⟩ : FRes)
        else createFoldersGo env (createFolderOp c.id dId c.name σ).newId c
          (createFolderOp c.id dId c.name σ).st).events,
        e.viaBackoff = e.kind.isConversionCreate := by
      by_cases h1 : c.foldersCopied = true
      · simp [h1]
      · by_cases h2 : checkTimeout (createFolderOp c.id dId c.name σ).st = true
        · simp [h1, h2]
        · simp only [h1, h2, Bool.false_eq_true, if_false]
          exact ih1
    rcases he with h | h
    · exact hopev e h
    · exact hrcev e h

/-- Claim C4, amended: only the format-conversion copy path (the `Drive.Files.create`
call inside `handleFormatConversion`) is invoked through `withBackoff`; every other
remote mutation of the two replicators — folder creations, spreadsheet copies and their
form cleanup, and default copies — is issued directly.  Stated per event: an event was
issued under the backoff executor exactly when it is the conversion-create call. -/
theorem c4_amended_only_conversion_via_backoff (env : Env) (t : FolderState) (σ : St) :
    (∀ e ∈ (createFolders env t σ).events, e.viaBackoff = e.kind.isConversionCreate) ∧
    (∀ e ∈ (copyFiles env t σ).events, e.viaBackoff = e.kind.isConversionCreate) := by
  constructor
  · intro e he
    by_cases h1 : t.foldersCopied = true
    · rw [createFolders_done env t σ h1] at he
      simp at he
    · by_cases h2 : checkTimeout σ = true
      · simp only [createFolders, h1, Bool.false_eq_true, if_false, h2, if_true] at he
        simp at he
      · cases h3 : t.destId with
        | none =>
          simp only [createFolders, h1, h2, Bool.false_eq_true, if_false, h3] at he
          simp at he
        | some dId =>
          simp only [createFolders, h1, h2, Bool.false_eq_true, if_false, h3] at he
          exact createFoldersGo_tag env dId t σ e he
  · exact copyFiles_tag env t σ

/-- Witness for the amended C4 at concrete runs: the folder-creation event of
`mixedTree`'s structure phase is not under backoff, and the conversion-create event of
`wordTree`'s content phase is. -/
theorem c4_amended_only_conversion_via_backoff_witness :
    (⟨.createFolder "C" "droot" "C" "dest-0", 0, false⟩ : Event).viaBackoff =
      (⟨.createFolder "C" "droot" "C" "dest-0", 0, false⟩ : Event).kind.isConversionCreate ∧
    (⟨.conversionCreate "F1" "F1" "droot" GOOGLE_DOCS "dest-0", 0, true⟩ : Event).viaBackoff =
      (⟨.conversionCreate "F1" "F1" "droot" GOOGLE_DOCS "dest-0", 0, true⟩
        : Event).kind.isConversionCreate :=
  ⟨(c4_amended_only_conversion_via_backoff mixedEnv mixedTree ⟨0, 100, 0⟩).1
      ⟨.createFolder "C" "droot" "C" "dest-0", 0, false⟩ (by decide),
   (c4_amended_only_conversion_via_backoff (officeEnv false) wordTree ⟨0, 100, 0⟩).2
      ⟨.conversionCreate "F1" "F1" "droot" GOOGLE_DOCS "dest-0", 0, true⟩ (by decide)⟩


/-! ### Claim C5: deadline discipline -/

/-- Clock advance, deadline preservation and event kinds of the form-cleanup loop. -/
theorem cleanupForms_spec (env : Env) (urls : List String) (σ : St) :
    (cleanupForms env urls σ).1.clock = σ.clock + 2 * urls.length ∧
    (cleanupForms env urls σ).1.deadline = σ.deadline ∧
    ∀ e ∈ (cleanupForms env urls σ).2, e.kind.isFormCleanup = true := by
  induction urls generalizing σ with
  | nil => simp [cleanupForms]
  | cons u rest ih =>
    obtain ⟨h1, h2, h3⟩ := ih (tick (tick σ).2).2
    refine ⟨?_, ?_, ?_⟩
    · simp only [cleanupForms]
      rw [h1]
      simp [tick]
      omega
    · simp only [cleanupForms]
      rw [h2]
      simp [tick]
    · intro e he
      simp only [cleanupForms, List.mem_cons] at he
      rcases he with h | h | h
      · subst h; rfl
      · subst h; rfl
      · exact h3 e h

/-- Clock and event bounds of the spreadsheet handler: the copy itself starts at the
current clock; only the cleanup runs afterwards. -/
theorem handleCopySpreadsheet_spec (env : Env) (fileId parentDestId : String) (σ : St) :
    (handleCopySpreadsheet env fileId parentDestId σ).st.deadline = σ.deadline ∧
    (handleCopySpreadsheet env fileId parentDestId σ).st.clock ≤
      σ.clock + 1 + 2 * (env.formsOf fileId).length ∧
    ∀ e ∈ (handleCopySpreadsheet env fileId parentDestId σ).events,
      e.kind.isFormCleanup = false → e.startClock = σ.clock := by
  obtain ⟨h1, h2, h3⟩ := cleanupForms_spec env (env.formsOf fileId) (tick (allocId σ).2).2
  simp only [handleCopySpreadsheet]
  split
  · refine ⟨?_, ?_, ?_⟩
    · rw [h2]; simp [tick, allocId]
    · rw [h1]; simp [tick, allocId]
    · intro e he
      simp only [List.mem_cons] at he
      rcases he with h | h
      · subst h; intro _; rfl
      · intro hnf
        exact absurd (h3 e h) (by simp [hnf])
  · refine ⟨?_, ?_, ?_⟩
    · simp [tick, allocId]
    · simp [tick, allocId]
    · intro e he
      simp only [List.mem_singleton] at he
      subst he
      intro _; rfl

/-- Clock and event bounds of the conversion handler. -/
theorem handleFormatConversion_spec (env : Env) (fileId parentDestId : String) (σ : St) :
    (handleFormatConversion env fileId parentDestId σ).st.deadline = σ.deadline ∧
    (handleFormatConversion env fileId parentDestId σ).st.clock = σ.clock + 1 ∧
    ∀ e ∈ (handleFormatConversion env fileId parentDestId σ).events,
      e.kind.isFormCleanup = false ∧ e.startClock = σ.clock := by
  simp only [handleFormatConversion]
  split
  · refine ⟨?_, ?_, ?_⟩
    · simp [withBackoffCall, tick, allocId]
    · simp [withBackoffCall, tick, allocId]
    · intro e he
      simp only [withBackoffCall, markBackoff, List.map, List.mem_singleton] at he
      subst he
      exact ⟨rfl, rfl⟩
  · refine ⟨?_, ?_, ?_⟩
    · simp [defaultCopy, tick, allocId]
    · simp [defaultCopy, tick, allocId]
    · intro e he
      simp only [defaultCopy, List.mem_singleton] at he
      subst he
      exact ⟨rfl, rfl⟩

/-- Deadline discipline of the file loop: the deadline is re-checked before each file,
so every copy starts strictly before the deadline; the clock can pass the deadline by at
most the cost of one item (a copy plus its form cleanup, bounded by `1 + B`). -/
theorem copyFilesLoop_deadline_spec (env : Env) (parentDestId : String) (B : Nat) :
    ∀ (fs : List FileState) (σ : St),
      (∀ f ∈ fs, 2 * (env.formsOf f.id).length ≤ B) →
      (∀ e ∈ (copyFilesLoop env parentDestId fs σ).events,
        e.kind.isFormCleanup = false → e.startClock < σ.deadline) ∧
      (copyFilesLoop env parentDestId fs σ).st.deadline = σ.deadline ∧
      (copyFilesLoop env parentDestId fs σ).st.clock ≤ max σ.clock (σ.deadline + B) := by
  intro fs
  induction fs with
  | nil =>
    intro σ _
    exact ⟨by simp [copyFilesLoop], by simp [copyFilesLoop], by simp [copyFilesLoop]⟩
  | cons f rest ih =>
    intro σ hB
    have hBf : 2 * (env.formsOf f.id).length ≤ B := hB f (by simp)
    have hBrest : ∀ f ∈ rest, 2 * (env.formsOf f.id).length ≤ B := by
      intro g hg
      exact hB g (by simp [hg])
    by_cases hskip : f.destId.isSome = true
    · obtain ⟨h1, h2, h3⟩ := ih σ hBrest
      refine ⟨?_, ?_, ?_⟩
      · intro e he
        simp only [copyFilesLoop, hskip, if_true] at he
        exact h1 e he
      · simp only [copyFilesLoop, hskip, if_true]
        exact h2
      · simp only [copyFilesLoop, hskip, if_true]
        exact h3
    · by_cases hto : checkTimeout σ = true
      · refine ⟨?_, ?_, ?_⟩
        · intro e he
          simp only [copyFilesLoop, hskip, Bool.false_eq_true, if_false, hto, if_true] at he
          simp at he
        · simp only [copyFilesLoop, hskip, Bool.false_eq_true, if_false, hto, if_true]
        · simp only [copyFilesLoop, hskip, Bool.false_eq_true, if_false, hto, if_true]
          exact Nat.le_max_left _ _
      · have hlt : σ.clock < σ.deadline := by
          simp only [checkTimeout, decide_eq_true_eq] at hto
          omega
        -- the op taken in this iteration
        set op : OpRes :=
          (if env.mimeOf f.id == GOOGLE_SHEETS then
            handleCopySpreadsheet env f.id parentDestId σ
          else if (FORMAT_CONVERSION_MAPPING.lookup (env.mimeOf f.id)).isSome then
            handleFormatConversion env f.id parentDestId σ
          else
            ⟨(allocId σ).1, (tick (allocId σ).2).2,
              [⟨.copyDefault f.id f.name parentDestId (allocId σ).1,
                (tick (allocId σ).2).1, false⟩]⟩) with hop
        have hopspec : op.st.deadline = σ.deadline ∧
            op.st.clock ≤ σ.clock + 1 + 2 * (env.formsOf f.id).length ∧
            ∀ e ∈ op.events, e.kind.isFormCleanup = false → e.startClock = σ.clock := by
          rw [hop]
          split
          · obtain ⟨a1, a2, a3⟩ := handleCopySpreadsheet_spec env f.id parentDestId σ
            exact ⟨a1, a2, a3⟩
          · split
            · obtain ⟨a1, a2, a3⟩ := handleFormatConversion_spec env f.id parentDestId σ
              refine ⟨a1, by omega, fun e he _ => (a3 e he).2⟩
            · refine ⟨by simp [tick, allocId], by simp [tick, allocId], ?_⟩
              intro e he _
              simp only [List.mem_singleton] at he
              subst he
              simp [tick, allocId]
        obtain ⟨hd, hc, hev⟩ := hopspec
        obtain ⟨r1, r2, r3⟩ := ih op.st hBrest
        have hopclock : op.st.clock ≤ σ.deadline + B := by omega
        refine ⟨?_, ?_, ?_⟩
        · intro e he
          simp only [copyFilesLoop, hskip, Bool.false_eq_true, if_false, hto,
            List.mem_append] at he
          rw [← hop] at he
          rcases he with h | h
          · intro hnf
            rw [hev e h hnf]
            exact hlt
          · intro hnf
            have := r1 e h hnf
            omega
        · simp only [copyFilesLoop, hskip, Bool.false_eq_true, if_false, hto]
          rw [← hop]
          omega
        · simp only [copyFilesLoop, hskip, Bool.false_eq_true, if_false, hto]
          rw [← hop]
          have : max op.st.clock (op.st.deadline + B) ≤ max σ.clock (σ.deadline + B) := by
            rw [hd]
            apply max_le
            · omega
            · exact Nat.le_max_right _ _
          omega

@[simp] theorem treeFiles_node (i n : String) (fc fo : Bool) (d : Option String)
    (fs : List FileState) (cs : List FolderState) :
    treeFiles (.node i n fc fo d fs cs) = fs ++ treeFilesL cs := by
  simp [treeFiles]

@[simp] theorem treeFilesL_nil : treeFilesL [] = [] := by simp [treeFilesL]

@[simp] theorem treeFilesL_cons (c : FolderState) (rest : List FolderState) :
    treeFilesL (c :: rest) = treeFiles c ++ treeFilesL rest := by
  simp [treeFilesL]

/-- Deadline discipline of the content phase: every unit-starting mutation (anything
but the form-cleanup tail of a spreadsheet item) starts strictly before the deadline,
and the clock exceeds the deadline by at most one item's cost. -/
theorem copyFiles_deadline_spec (env : Env) (B : Nat) : ∀ (t : FolderState) (σ : St),
    (∀ f ∈ treeFiles t, 2 * (env.formsOf f.id).length ≤ B) →
    (∀ e ∈ (copyFiles env t σ).events, e.kind.isFormCleanup = false →
      e.startClock < σ.deadline) ∧
    (copyFiles env t σ).st.deadline = σ.deadline ∧
    (copyFiles env t σ).st.clock ≤ max σ.clock (σ.deadline + B) := by
  refine copyFiles.induct env
    (fun t σ => (∀ f ∈ treeFiles t, 2 * (env.formsOf f.id).length ≤ B) →
      (∀ e ∈ (copyFiles env t σ).events, e.kind.isFormCleanup = false →
        e.startClock < σ.deadline) ∧
      (copyFiles env t σ).st.deadline = σ.deadline ∧
      (copyFiles env t σ).st.clock ≤ max σ.clock (σ.deadline + B))
    (fun cs σ => (∀ f ∈ treeFilesL cs, 2 * (env.formsOf f.id).length ≤ B) →
      (∀ e ∈ (copyFilesChildren env cs σ).events, e.kind.isFormCleanup = false →
        e.startClock < σ.deadline) ∧
      (copyFilesChildren env cs σ).st.deadline = σ.deadline ∧
      (copyFilesChildren env cs σ).st.clock ≤ max σ.clock (σ.deadline + B))
    ?_ ?_ ?_ ?_ ?_ ?_ ?_ ?_ ?_ ?_ ?_
  · intro σ i n fo d fs cs _
    simp [copyFiles]
  · intro σ i n fc fo d fs cs hfc hto _
    simp [copyFiles, hfc, hto]
  · intro σ i n fc fo fs cs hfc hto _
    simp [copyFiles, hfc, hto]
  · intro σ i n fc fo fs cs hfc hto dId rf hrf rc hrc ih hB
    simp only [rf] at ih
    have hrf' : (copyFilesLoop env dId fs σ).ok = true := hrf
    have hrc' : (copyFilesChildren env cs (copyFilesLoop env dId fs σ).st).out =
      COut.ok true := hrc
    have hBfs : ∀ f ∈ fs, 2 * (env.formsOf f.id).length ≤ B := by
      intro f hf
      exact hB f (by simp [List.mem_append, hf])
    have hBcs : ∀ f ∈ treeFilesL cs, 2 * (env.formsOf f.id).length ≤ B := by
      intro f hf
      exact hB f (by simp [List.mem_append, hf])
    obtain ⟨l1, l2, l3⟩ := copyFilesLoop_deadline_spec env dId B fs σ hBfs
    obtain ⟨m1, m2, m3⟩ := ih hBcs
    refine ⟨?_, ?_, ?_⟩
    · intro e he
      simp only [copyFiles, hfc, hto, Bool.false_eq_true, if_false, hrf', if_true, hrc',
        List.mem_append] at he
      rcases he with h | h
      · exact l1 e h
      · intro hnf
        have := m1 e h hnf
        omega
    · simp only [copyFiles, hfc, hto, Bool.false_eq_true, if_false, hrf', if_true, hrc']
      omega
    · simp only [copyFiles, hfc, hto, Bool.false_eq_true, if_false, hrf', if_true, hrc']
      omega
  · intro σ i n fc fo fs cs hfc hto dId rf hrf rc hrc ih hB
    simp only [rf] at ih
    have hrf' : (copyFilesLoop env dId fs σ).ok = true := hrf
    have hrc' : (copyFilesChildren env cs (copyFilesLoop env dId fs σ).st).out =
      COut.ok false := hrc
    have hBfs : ∀ f ∈ fs, 2 * (env.formsOf f.id).length ≤ B := by
      intro f hf
      exact hB f (by simp [List.mem_append, hf])
    have hBcs : ∀ f ∈ treeFilesL cs, 2 * (env.formsOf f.id).length ≤ B := by
      intro f hf
      exact hB f (by simp [List.mem_append, hf])
    obtain ⟨l1, l2, l3⟩ := copyFilesLoop_deadline_spec env dId B fs σ hBfs
    obtain ⟨m1, m2, m3⟩ := ih hBcs
    refine ⟨?_, ?_, ?_⟩
    · intro e he
      simp only [copyFiles, hfc, hto, Bool.false_eq_true, if_false, hrf', if_true, hrc',
        List.mem_append] at he
      rcases he with h | h
      · exact l1 e h
      · intro hnf
        have := m1 e h hnf
        omega
    · simp only [copyFiles, hfc, hto, Bool.false_eq_true, if_false, hrf', if_true, hrc']
      omega
    · simp only [copyFiles, hfc, hto, Bool.false_eq_true, if_false, hrf', if_true, hrc']
      omega
  · intro σ i n fc fo fs cs hfc hto dId rf hrf rc hrc ih hB
    simp only [rf] at ih
    have hrf' : (copyFilesLoop env dId fs σ).ok = true := hrf
    have hrc' : (copyFilesChildren env cs (copyFilesLoop env dId fs σ).st).out =
      COut.err := hrc
    have hBfs : ∀ f ∈ fs, 2 * (env.formsOf f.id).length ≤ B := by
      intro f hf
      exact hB f (by simp [List.mem_append, hf])
    have hBcs : ∀ f ∈ treeFilesL cs, 2 * (env.formsOf f.id).length ≤ B := by
      intro f hf
      exact hB f (by simp [List.mem_append, hf])
    obtain ⟨l1, l2, l3⟩ := copyFilesLoop_deadline_spec env dId B fs σ hBfs
    obtain ⟨m1, m2, m3⟩ := ih hBcs
    refine ⟨?_, ?_, ?_⟩
    · intro e he
      simp only [copyFiles, hfc, hto, Bool.false_eq_true, if_false, hrf', if_true, hrc',
        List.mem_append] at he
      rcases he with h | h
      · exact l1 e h
      · intro hnf
        have := m1 e h hnf
        omega
    · simp only [copyFiles, hfc, hto, Bool.false_eq_true, if_false, hrf', if_true, hrc']
      omega
    · simp only [copyFiles, hfc, hto, Bool.false_eq_true, if_false, hrf', if_true, hrc']
      omega
  · intro σ i n fc fo fs cs hfc hto dId rf hrf hB
    have hrf' : (copyFilesLoop env dId fs σ).ok = false := by
      have := hrf
      simp only [Bool.not_eq_true] at this
      exact this
    have hBfs : ∀ f ∈ fs, 2 * (env.formsOf f.id).length ≤ B := by
      intro f hf
      exact hB f (by simp [List.mem_append, hf])
    obtain ⟨l1, l2, l3⟩ := copyFilesLoop_deadline_spec env dId B fs σ hBfs
    refine ⟨?_, ?_, ?_⟩
    · intro e he
      simp only [copyFiles, hfc, hto, Bool.false_eq_true, if_false, hrf'] at he
      exact l1 e he
    · simp only [copyFiles, hfc, hto, Bool.false_eq_true, if_false, hrf']
      exact l2
    · simp only [copyFiles, hfc, hto, Bool.false_eq_true, if_false, hrf']
      exact l3
  · intro σ _
    simp [copyFilesChildren]
  · intro σ c rest rc hrc ih1 ih2 hB
    simp only [rc] at ih2
    have hrc' : (copyFiles env c σ).out = COut.ok true := hrc
    have hBc : ∀ f ∈ treeFiles c, 2 * (env.formsOf f.id).length ≤ B := by
      intro f hf
      exact hB f (by simp [List.mem_append, hf])
    have hBrest : ∀ f ∈ treeFilesL rest, 2 * (env.formsOf f.id).length ≤ B := by
      intro f hf
      exact hB f (by simp [List.mem_append, hf])
    obtain ⟨m1, m2, m3⟩ := ih1 hBc
    obtain ⟨n1, n2, n3⟩ := ih2 hBrest
    refine ⟨?_, ?_, ?_⟩
    · intro e he
      simp only [copyFilesChildren, hrc', List.mem_append] at he
      rcases he with h | h
      · exact m1 e h
      · intro hnf
        have := n1 e h hnf
        omega
    · simp only [copyFilesChildren, hrc']
      omega
    · simp only [copyFilesChildren, hrc']
      omega
  · intro σ c rest rc hrc ih1 hB
    have hrc' : (copyFiles env c σ).out = COut.ok false := hrc
    have hBc : ∀ f ∈ treeFiles c, 2 * (env.formsOf f.id).length ≤ B := by
      intro f hf
      exact hB f (by simp [List.mem_append, hf])
    obtain ⟨m1, m2, m3⟩ := ih1 hBc
    refine ⟨?_, ?_, ?_⟩
    · intro e he
      simp only [copyFilesChildren, hrc'] at he
      exact m1 e he
    · simp only [copyFilesChildren, hrc']
      exact m2
    · simp only [copyFilesChildren, hrc']
      exact m3
  · intro σ c rest rc hrc ih1 hB
    have hrc' : (copyFiles env c σ).out = COut.err := hrc
    have hBc : ∀ f ∈ treeFiles c, 2 * (env.formsOf f.id).length ≤ B := by
      intro f hf
      exact hB f (by simp [List.mem_append, hf])
    obtain ⟨m1, m2, m3⟩ := ih1 hBc
    refine ⟨?_, ?_, ?_⟩
    · intro e he
      simp only [copyFilesChildren, hrc'] at he
      exact m1 e he
    · simp only [copyFilesChildren, hrc']
      exact m2
    · simp only [copyFilesChildren, hrc']
      exact m3

@[simp] theorem wfFolder_node (i n : String) (fc fo : Bool) (d : Option String)
    (fs : List FileState) (cs : List FolderState) :
    wfFolder (.node i n fc fo d fs cs) = ((!fo || d.isSome) && wfFolderL cs) := by
  simp [wfFolder]

@[simp] theorem wfFolderL_nil : wfFolderL [] = true := by simp [wfFolderL]

@[simp] theorem wfFolderL_cons (c : FolderState) (rest : List FolderState) :
    wfFolderL (c :: rest) = (wfFolder c && wfFolderL rest) := by
  simp [wfFolderL]

/-- A well-formed folder with no recorded destination has its `foldersCopied` flag
unset. -/
theorem wfFolder_elim (c : FolderState) (h : wfFolder c = true) (hd : c.destId = none) :
    c.foldersCopied = false ∧ wfFolderL c.folders = true := by
  cases c with
  | node i n fc fo d fs cs =>
    simp only [FolderState.destId_node] at hd
    subst hd
    simp only [wfFolder_node, Option.isSome_none, Bool.or_false, Bool.and_eq_true,
      Bool.not_eq_eq_eq_not, Bool.not_true] at h
    exact ⟨h.1, h.2⟩

/-- Deadline discipline of the structure phase on well-formed trees: every folder
creation starts strictly before the deadline, the clock never passes the deadline, and
a fully successful call finishes strictly before it.  Although the sibling loop itself
has no per-item check, each iteration's recursive call re-checks the deadline at entry
before the next sibling is created, which is what these invariants rest on. -/
theorem createFolders_deadline_spec (env : Env) :
    ∀ (dId : String) (t : FolderState) (σ : St),
      wfFolderL t.folders = true → σ.clock < σ.deadline →
      (∀ e ∈ (createFoldersGo env dId t σ).events, e.startClock < σ.deadline) ∧
      (createFoldersGo env dId t σ).st.deadline = σ.deadline ∧
      (createFoldersGo env dId t σ).st.clock ≤ σ.deadline ∧
      ((createFoldersGo env dId t σ).out = .ok true →
        (createFoldersGo env dId t σ).st.clock < σ.deadline) := by
  refine createFoldersGo.induct env
    (fun dId t σ => wfFolderL t.folders = true → σ.clock < σ.deadline →
      (∀ e ∈ (createFoldersGo env dId t σ).events, e.startClock < σ.deadline) ∧
      (createFoldersGo env dId t σ).st.deadline = σ.deadline ∧
      (createFoldersGo env dId t σ).st.clock ≤ σ.deadline ∧
      ((createFoldersGo env dId t σ).out = .ok true →
        (createFoldersGo env dId t σ).st.clock < σ.deadline))
    (fun dId cs σ => wfFolderL cs = true → σ.clock < σ.deadline →
      (∀ e ∈ (createFoldersChildren env dId cs σ).events, e.startClock < σ.deadline) ∧
      (createFoldersChildren env dId cs σ).st.deadline = σ.deadline ∧
      (createFoldersChildren env dId cs σ).st.clock ≤ σ.deadline ∧
      ((createFoldersChildren env dId cs σ).out = .ok true →
        (createFoldersChildren env dId cs σ).st.clock < σ.deadline))
    ?_ ?_ ?_ ?_ ?_ ?_ ?_ ?_
  · intro dId σ i n fc fo d fs cs r hr ih hwf hlt
    have hr' : (createFoldersChildren env dId cs σ).out = COut.ok true := hr
    simp only [FolderState.folders_node] at hwf
    obtain ⟨m1, m2, m3, m4⟩ := ih hwf hlt
    simp only [createFoldersGo, hr']
    exact ⟨m1, m2, m3, fun _ => m4 hr'⟩
  · intro dId σ i n fc fo d fs cs r hr ih hwf hlt
    have hr' : (createFoldersChildren env dId cs σ).out = COut.ok false := hr
    simp only [FolderState.folders_node] at hwf
    obtain ⟨m1, m2, m3, _⟩ := ih hwf hlt
    simp only [createFoldersGo, hr']
    refine ⟨m1, m2, m3, ?_⟩
    intro h
    cases h
  · intro dId σ i n fc fo d fs cs r hr ih hwf hlt
    have hr' : (createFoldersChildren env dId cs σ).out = COut.err := hr
    simp only [FolderState.folders_node] at hwf
    obtain ⟨m1, m2, m3, _⟩ := ih hwf hlt
    simp only [createFoldersGo, hr']
    refine ⟨m1, m2, m3, ?_⟩
    intro h
    cases h
  · intro dId σ _ hlt
    refine ⟨?_, ?_, ?_, ?_⟩
    · intro e he
      simp [createFoldersChildren] at he
    · simp [createFoldersChildren]
    · simp only [createFoldersChildren]
      exact Nat.le_of_lt hlt
    · intro _
      simp only [createFoldersChildren]
      exact hlt
  · intro dId σ c rest hskip ih hwf hlt
    simp only [wfFolderL_cons, Bool.and_eq_true] at hwf
    obtain ⟨m1, m2, m3, m4⟩ := ih hwf.2 hlt
    simp only [createFoldersChildren, hskip, if_true]
    exact ⟨m1, m2, m3, m4⟩
  · -- create + child recursion returned ok true
    intro dId σ c rest hskip op rc hrc ih1 ih2 hwf hlt
    simp only [rc] at hrc ih2
    simp only [op] at hrc ih1 ih2
    have hnone : c.destId = none := by
      cases h : c.destId with
      | none => rfl
      | some v => simp [h] at hskip
    simp only [wfFolderL_cons, Bool.and_eq_true] at hwf
    obtain ⟨hfo, hwfc⟩ := wfFolder_elim c hwf.1 hnone
    simp only [hfo, Bool.false_eq_true, if_false] at hrc ih2
    have hopdl : (createFolderOp c.id dId c.name σ).st.deadline = σ.deadline := by
      simp [createFolderOp, tick, allocId]
    have hopcl : (createFolderOp c.id dId c.name σ).st.clock = σ.clock + 1 := by
      simp [createFolderOp, tick, allocId]
    by_cases hto : checkTimeout (createFolderOp c.id dId c.name σ).st = true
    · rw [if_pos hto] at hrc
      simp at hrc
    · rw [if_neg hto] at hrc ih2
      have hoplt : (createFolderOp c.id dId c.name σ).st.clock <
          (createFolderOp c.id dId c.name σ).st.deadline := by
        simp only [checkTimeout, decide_eq_true_eq] at hto
        omega
      obtain ⟨a1, a2, a3, a4⟩ := ih1 (by simpa using hwfc) hoplt
      have hgolt := a4 hrc
      obtain ⟨b1, b2, b3, b4⟩ := ih2 hwf.2 (by omega)
      simp only [createFoldersChildren, hnone, Option.isSome_none, Bool.false_eq_true,
        if_false, hfo]
      rw [if_neg hto]
      simp only [hrc]
      refine ⟨?_, ?_, ?_, ?_⟩
      · intro e he
        simp only [List.mem_append] at he
        rcases he with (h | h) | h
        · simp only [createFolderOp, tick, allocId, List.mem_singleton] at h
          subst h
          exact hlt
        · have := a1 e h
          omega
        · have := b1 e h
          omega
      · omega
      · omega
      · intro hout
        have := b4 hout
        omega
  · -- create + child recursion returned ok false
    intro dId σ c rest hskip op rc hrc ih1 hwf hlt
    simp only [rc] at hrc
    simp only [op] at hrc ih1
    have hnone : c.destId = none := by
      cases h : c.destId with
      | none => rfl
      | some v => simp [h] at hskip
    simp only [wfFolderL_cons, Bool.and_eq_true] at hwf
    obtain ⟨hfo, hwfc⟩ := wfFolder_elim c hwf.1 hnone
    simp only [hfo, Bool.false_eq_true, if_false] at hrc
    have hopdl : (createFolderOp c.id dId c.name σ).st.deadline = σ.deadline := by
      simp [createFolderOp, tick, allocId]
    have hopcl : (createFolderOp c.id dId c.name σ).st.clock = σ.clock + 1 := by
      simp [createFolderOp, tick, allocId]
    by_cases hto : checkTimeout (createFolderOp c.id dId c.name σ).st = true
    · have htole : σ.deadline ≤ σ.clock + 1 := by
        simp only [checkTimeout, decide_eq_true_eq, hopcl, hopdl] at hto
        omega
      simp only [createFoldersChildren, hnone, Option.isSome_none, Bool.false_eq_true,
        if_false, hfo]
      rw [if_pos hto]
      refine ⟨?_, ?_, ?_, ?_⟩
      · intro e he
        simp only [createFolderOp, tick, allocId, List.append_nil,
          List.mem_singleton] at he
        subst he
        exact hlt
      · simp only [createFolderOp, tick, allocId]
      · simp only [createFolderOp, tick, allocId]
        omega
      · intro h
        simp at h
    · rw [if_neg hto] at hrc
      have hoplt : (createFolderOp c.id dId c.name σ).st.clock <
          (createFolderOp c.id dId c.name σ).st.deadline := by
        simp only [checkTimeout, decide_eq_true_eq] at hto
        omega
      obtain ⟨a1, a2, a3, _⟩ := ih1 (by simpa using hwfc) hoplt
      simp only [createFoldersChildren, hnone, Option.isSome_none, Bool.false_eq_true,
        if_false, hfo]
      rw [if_neg hto]
      simp only [hrc]
      refine ⟨?_, ?_, ?_, ?_⟩
      · intro e he
        simp only [List.mem_append] at he
        rcases he with h | h
        · simp only [createFolderOp, tick, allocId, List.mem_singleton] at h
          subst h
          exact hlt
        · have := a1 e h
          omega
      · omega
      · omega
      · intro h
        simp at h
  · -- create + child recursion returned err
    intro dId σ c rest hskip op rc hrc ih1 hwf hlt
    simp only [rc] at hrc
    simp only [op] at hrc ih1
    have hnone : c.destId = none := by
      cases h : c.destId with
      | none => rfl
      | some v => simp [h] at hskip
    simp only [wfFolderL_cons, Bool.and_eq_true] at hwf
    obtain ⟨hfo, hwfc⟩ := wfFolder_elim c hwf.1 hnone
    simp only [hfo, Bool.false_eq_true, if_false] at hrc
    have hopdl : (createFolderOp c.id dId c.name σ).st.deadline = σ.deadline := by
      simp [createFolderOp, tick, allocId]
    have hopcl : (createFolderOp c.id dId c.name σ).st.clock = σ.clock + 1 := by
      simp [createFolderOp, tick, allocId]
    by_cases hto : checkTimeout (createFolderOp c.id dId c.name σ).st = true
    · rw [if_pos hto] at hrc
      simp at hrc
    · rw [if_neg hto] at hrc
      have hoplt : (createFolderOp c.id dId c.name σ).st.clock <
          (createFolderOp c.id dId c.name σ).st.deadline := by
        simp only [checkTimeout, decide_eq_true_eq] at hto
        omega
      obtain ⟨a1, a2, a3, _⟩ := ih1 (by simpa using hwfc) hoplt
      simp only [createFoldersChildren, hnone, Option.isSome_none, Bool.false_eq_true,
        if_false, hfo]
      rw [if_neg hto]
      simp only [hrc]
      refine ⟨?_, ?_, ?_, ?_⟩
      · intro e he
        simp only [List.mem_append] at he
        rcases he with h | h
        · simp only [createFolderOp, tick, allocId, List.mem_singleton] at h
          subst h
          exact hlt
        · have := a1 e h
          omega
      · omega
      · omega
      · intro h
        simp at h

/-- A well-formed tree is well-formed at its children. -/
theorem wfFolder_folders (t : FolderState) (h : wfFolder t = true) :
    wfFolderL t.folders = true := by
  cases t with
  | node i n fc fo d fs cs =>
    simp only [wfFolder_node, Bool.and_eq_true] at h
    simpa using h.2

/-- Recording a destination id on a node preserves well-formedness of the node. -/
theorem wfFolder_setDestId_some (c : FolderState) (v : String)
    (h : wfFolderL c.folders = true) : wfFolder (c.setDestId (some v)) = true := by
  cases c with
  | node i n fc fo d fs cs =>
    simp only [FolderState.folders_node] at h
    simp [h]

/-- The structure phase preserves well-formedness of the subtrees it recurses into. -/
theorem createFoldersGo_wf (env : Env) : ∀ (dId : String) (t : FolderState) (σ : St),
    wfFolderL t.folders = true → wfFolder (createFoldersGo env dId t σ).tree = true := by
  refine createFoldersGo.induct env
    (fun dId t σ => wfFolderL t.folders = true →
      wfFolder (createFoldersGo env dId t σ).tree = true)
    (fun dId cs σ => wfFolderL cs = true →
      wfFolderL (createFoldersChildren env dId cs σ).trees = true)
    ?_ ?_ ?_ ?_ ?_ ?_ ?_ ?_
  · intro dId σ i n fc fo d fs cs r hr ih hwf
    have hr' : (createFoldersChildren env dId cs σ).out = COut.ok true := hr
    simp only [FolderState.folders_node] at hwf
    simp only [createFoldersGo, hr', wfFolder_node, Option.isSome_some, Bool.or_true,
      Bool.true_and]
    exact ih hwf
  · intro dId σ i n fc fo d fs cs r hr ih hwf
    have hr' : (createFoldersChildren env dId cs σ).out = COut.ok false := hr
    simp only [FolderState.folders_node] at hwf
    simp only [createFoldersGo, hr', wfFolder_node, Option.isSome_some, Bool.or_true,
      Bool.true_and]
    exact ih hwf
  · intro dId σ i n fc fo d fs cs r hr ih hwf
    have hr' : (createFoldersChildren env dId cs σ).out = COut.err := hr
    simp only [FolderState.folders_node] at hwf
    simp only [createFoldersGo, hr', wfFolder_node, Option.isSome_some, Bool.or_true,
      Bool.true_and]
    exact ih hwf
  · intro dId σ _
    simp [createFoldersChildren]
  · intro dId σ c rest hskip ih hwf
    simp only [wfFolderL_cons, Bool.and_eq_true] at hwf
    simp only [createFoldersChildren, hskip, if_true, wfFolderL_cons, Bool.and_eq_true]
    exact ⟨hwf.1, ih hwf.2⟩
  · -- create + child recursion returned ok true
    intro dId σ c rest hskip op rc hrc ih1 ih2 hwf
    simp only [rc] at hrc ih2
    simp only [op] at hrc ih1 ih2
    have hnone : c.destId = none := by
      cases h : c.destId with
      | none => rfl
      | some v => simp [h] at hskip
    simp only [wfFolderL_cons, Bool.and_eq_true] at hwf
    obtain ⟨hfo, hwfc⟩ := wfFolder_elim c hwf.1 hnone
    simp only [hfo, Bool.false_eq_true, if_false] at hrc ih2
    by_cases hto : checkTimeout (createFolderOp c.id dId c.name σ).st = true
    · rw [if_pos hto] at hrc
      simp at hrc
    · rw [if_neg hto] at hrc ih2
      have hwfgo := ih1 (by simpa using hwfc)
      simp only [createFoldersChildren, hnone, Option.isSome_none, Bool.false_eq_true,
        if_false, hfo]
      rw [if_neg hto]
      simp only [hrc]
      simp only [wfFolderL_cons, Bool.and_eq_true]
      exact ⟨hwfgo, ih2 hwf.2⟩
  · -- create + child recursion returned ok false
    intro dId σ c rest hskip op rc hrc ih1 hwf
    simp only [rc] at hrc
    simp only [op] at hrc ih1
    have hnone : c.destId = none := by
      cases h : c.destId with
      | none => rfl
      | some v => simp [h] at hskip
    simp only [wfFolderL_cons, Bool.and_eq_true] at hwf
    obtain ⟨hfo, hwfc⟩ := wfFolder_elim c hwf.1 hnone
    simp only [hfo, Bool.false_eq_true, if_false] at hrc
    by_cases hto : checkTimeout (createFolderOp c.id dId c.name σ).st = true
    · simp only [createFoldersChildren, hnone, Option.isSome_none, Bool.false_eq_true,
        if_false, hfo]
      rw [if_pos hto]
      show wfFolderL
        (c.setDestId (some (createFolderOp c.id dId c.name σ).newId) :: rest) = true
      simp only [wfFolderL_cons, Bool.and_eq_true]
      exact ⟨wfFolder_setDestId_some c _ (by simpa using hwfc), hwf.2⟩
    · rw [if_neg hto] at hrc
      have hwfgo := ih1 (by simpa using hwfc)
      simp only [createFoldersChildren, hnone, Option.isSome_none, Bool.false_eq_true,
        if_false, hfo]
      rw [if_neg hto]
      simp only [hrc]
      simp only [wfFolderL_cons, Bool.and_eq_true]
      exact ⟨hwfgo, hwf.2⟩
  · -- create + child recursion returned err
    intro dId σ c rest hskip op rc hrc ih1 hwf
    simp only [rc] at hrc
    simp only [op] at hrc ih1
    have hnone : c.destId = none := by
      cases h : c.destId with
      | none => rfl
      | some v => simp [h] at hskip
    simp only [wfFolderL_cons, Bool.and_eq_true] at hwf
    obtain ⟨hfo, hwfc⟩ := wfFolder_elim c hwf.1 hnone
    simp only [hfo, Bool.false_eq_true, if_false] at hrc
    by_cases hto : checkTimeout (createFolderOp c.id dId c.name σ).st = true
    · rw [if_pos hto] at hrc
      simp at hrc
    · rw [if_neg hto] at hrc
      have hwfgo := ih1 (by simpa using hwfc)
      simp only [createFoldersChildren, hnone, Option.isSome_none, Bool.false_eq_true,
        if_false, hfo]
      rw [if_neg hto]
      simp only [hrc]
      simp only [wfFolderL_cons, Bool.and_eq_true]
      exact ⟨hwfgo, hwf.2⟩

/-- `createFolders` preserves well-formedness of the progress tree. -/
theorem createFolders_wf (env : Env) (t : FolderState) (σ : St)
    (hwf : wfFolder t = true) : wfFolder (createFolders env t σ).tree = true := by
  by_cases h1 : t.foldersCopied = true
  · rw [createFolders_done env t σ h1]
    exact hwf
  · by_cases h2 : checkTimeout σ = true
    · simp only [createFolders, h1, Bool.false_eq_true, if_false, h2, if_true]
      exact hwf
    · cases h3 : t.destId with
      | none =>
        simp only [createFolders, h1, h2, Bool.false_eq_true, if_false, h3]
        exact hwf
      | some dId =>
        simp only [createFolders, h1, h2, Bool.false_eq_true, if_false, h3]
        exact createFoldersGo_wf env dId t σ (wfFolder_folders t hwf)

/-- The content phase preserves well-formedness: it never changes `foldersCopied` or the
`destId` of any folder. -/
theorem copyFiles_wf (env : Env) : ∀ (t : FolderState) (σ : St),
    wfFolder t = true → wfFolder (copyFiles env t σ).tree = true := by
  refine copyFiles.induct env
    (fun t σ => wfFolder t = true → wfFolder (copyFiles env t σ).tree = true)
    (fun cs σ => wfFolderL cs = true →
      wfFolderL (copyFilesChildren env cs σ).trees = true)
    ?_ ?_ ?_ ?_ ?_ ?_ ?_ ?_ ?_ ?_ ?_
  · intro σ i n fo d fs cs hwf
    simpa [copyFiles] using hwf
  · intro σ i n fc fo d fs cs hfc hto hwf
    simpa [copyFiles, hfc, hto] using hwf
  · intro σ i n fc fo fs cs hfc hto hwf
    simpa [copyFiles, hfc, hto] using hwf
  · intro σ i n fc fo fs cs hfc hto dId rf hrf rc hrc ih hwf
    have hrf' : (copyFilesLoop env dId fs σ).ok = true := hrf
    have hrc' : (copyFilesChildren env cs (copyFilesLoop env dId fs σ).st).out =
      COut.ok true := hrc
    have ih' : wfFolderL cs = true →
      wfFolderL (copyFilesChildren env cs (copyFilesLoop env dId fs σ).st).trees =
        true := ih
    simp only [wfFolder_node, Option.isSome_some, Bool.or_true, Bool.true_and] at hwf
    simp only [copyFiles, hfc, hto, Bool.false_eq_true, if_false, hrf', if_true, hrc',
      wfFolder_node, Option.isSome_some, Bool.or_true, Bool.true_and]
    exact ih' hwf
  · intro σ i n fc fo fs cs hfc hto dId rf hrf rc hrc ih hwf
    have hrf' : (copyFilesLoop env dId fs σ).ok = true := hrf
    have hrc' : (copyFilesChildren env cs (copyFilesLoop env dId fs σ).st).out =
      COut.ok false := hrc
    have ih' : wfFolderL cs = true →
      wfFolderL (copyFilesChildren env cs (copyFilesLoop env dId fs σ).st).trees =
        true := ih
    simp only [wfFolder_node, Option.isSome_some, Bool.or_true, Bool.true_and] at hwf
    simp only [copyFiles, hfc, hto, Bool.false_eq_true, if_false, hrf', if_true, hrc',
      wfFolder_node, Option.isSome_some, Bool.or_true, Bool.true_and]
    exact ih' hwf
  · intro σ i n fc fo fs cs hfc hto dId rf hrf rc hrc ih hwf
    have hrf' : (copyFilesLoop env dId fs σ).ok = true := hrf
    have hrc' : (copyFilesChildren env cs (copyFilesLoop env dId fs σ).st).out =
      COut.err := hrc
    have ih' : wfFolderL cs = true →
      wfFolderL (copyFilesChildren env cs (copyFilesLoop env dId fs σ).st).trees =
        true := ih
    simp only [wfFolder_node, Option.isSome_some, Bool.or_true, Bool.true_and] at hwf
    simp only [copyFiles, hfc, hto, Bool.false_eq_true, if_false, hrf', if_true, hrc',
      wfFolder_node, Option.isSome_some, Bool.or_true, Bool.true_and]
    exact ih' hwf
  · intro σ i n fc fo fs cs hfc hto dId rf hrf hwf
    have hrf' : (copyFilesLoop env dId fs σ).ok = false := by
      have := hrf
      simp only [Bool.not_eq_true] at this
      exact this
    simp only [wfFolder_node, Option.isSome_some, Bool.or_true, Bool.true_and] at hwf
    simp only [copyFiles, hfc, hto, Bool.false_eq_true, if_false, hrf', wfFolder_node,
      Option.isSome_some, Bool.or_true, Bool.true_and]
    exact hwf
  · intro σ hwf
    simp [copyFilesChildren]
  · intro σ c rest rc hrc ih1 ih2 hwf
    have hrc' : (copyFiles env c σ).out = COut.ok true := hrc
    have ih2' : wfFolderL rest = true →
      wfFolderL (copyFilesChildren env rest (copyFiles env c σ).st).trees = true := ih2
    simp only [wfFolderL_cons, Bool.and_eq_true] at hwf
    simp only [copyFilesChildren, hrc', wfFolderL_cons, Bool.and_eq_true]
    exact ⟨ih1 hwf.1, ih2' hwf.2⟩
  · intro σ c rest rc hrc ih1 hwf
    have hrc' : (copyFiles env c σ).out = COut.ok false := hrc
    simp only [wfFolderL_cons, Bool.and_eq_true] at hwf
    simp only [copyFilesChildren, hrc', wfFolderL_cons, Bool.and_eq_true]
    exact ⟨ih1 hwf.1, hwf.2⟩
  · intro σ c rest rc hrc ih1 hwf
    have hrc' : (copyFiles env c σ).out = COut.err := hrc
    simp only [wfFolderL_cons, Bool.and_eq_true] at hwf
    simp only [copyFilesChildren, hrc', wfFolderL_cons, Bool.and_eq_true]
    exact ⟨ih1 hwf.1, hwf.2⟩

/-- One whole execution preserves well-formedness. -/
theorem runExecution_wf (env : Env) (t : FolderState) (d f : Nat)
    (hwf : wfFolder t = true) : wfFolder (runExecution env t d f).tree = true := by
  have h1 := createFolders_wf env t ⟨0, d, f⟩ hwf
  cases h : (createFolders env t ⟨0, d, f⟩).out with
  | ok b =>
    cases b with
    | true =>
      simp only [runExecution, h]
      exact copyFiles_wf env _ _ h1
    | false =>
      simp only [runExecution, h]
      exact h1
  | err =>
    simp only [runExecution, h]
    exact h1

/-- Well-formedness is an invariant of the whole job: every persisted progress tree
reachable by a sequence of invocations satisfies the hypothesis of the deadline
theorems. -/
theorem runJobSeq_wf (env : Env) : ∀ (ds : List Nat) (s : JobState),
    wfFolder s.saved = true → wfFolder (runJobSeq env s ds).saved = true := by
  have hjob : ∀ (s : JobState) (d : Nat), wfFolder s.saved = true →
      wfFolder (runJob env s d).saved = true := by
    intro s d hwf
    by_cases hd : s.done = true
    · simpa [runJob, hd] using hwf
    · have hexec := runExecution_wf env s.saved d s.fresh hwf
      cases h : (runExecution env s.saved d s.fresh).out with
      | ok b =>
        cases b with
        | true => simpa [runJob, hd, h] using hexec
        | false => simpa [runJob, hd, h] using hexec
      | err => simpa [runJob, hd, h] using hwf
  intro ds
  induction ds with
  | nil =>
    intro s hwf
    exact hwf
  | cons d rest ih =>
    intro s hwf
    exact ih (runJob env s d) (hjob s d hwf)

/-- Claim C5: in both `createFolders` and `copyFiles` the deadline predicate is
consulted before each unit of recursive work and before each item of the sibling/file
loops (in `createFolders`, via the entry check of the recursive call made in every
iteration), so that no new unit of work — no folder creation and no file copy — starts
once the deadline has passed, and an execution's clock exceeds the budget by at most the
cost of a single item (`1` for a folder creation or plain copy, `1 + B` for a
spreadsheet whose form cleanup is bounded by `B`). -/
theorem c5_deadline_gates_every_unit_of_work (env : Env) (t : FolderState) (σ : St) (B : Nat)
    (hwf : wfFolder t = true)
    (hB : ∀ f ∈ treeFiles t, 2 * (env.formsOf f.id).length ≤ B) :
    ((∀ e ∈ (createFolders env t σ).events, e.startClock < σ.deadline) ∧
      (createFolders env t σ).st.clock ≤ max σ.clock σ.deadline) ∧
    ((∀ e ∈ (copyFiles env t σ).events, e.kind.isFormCleanup = false →
        e.startClock < σ.deadline) ∧
      (copyFiles env t σ).st.clock ≤ max σ.clock (σ.deadline + B)) := by
  constructor
  · by_cases h1 : t.foldersCopied = true
    · rw [createFolders_done env t σ h1]
      exact ⟨by simp, Nat.le_max_left _ _⟩
    · by_cases h2 : checkTimeout σ = true
      · simp only [createFolders, h1, Bool.false_eq_true, if_false, h2, if_true]
        exact ⟨by simp, Nat.le_max_left _ _⟩
      · cases h3 : t.destId with
        | none =>
          simp only [createFolders, h1, h2, Bool.false_eq_true, if_false, h3]
          exact ⟨by simp, Nat.le_max_left _ _⟩
        | some dId =>
          have hlt : σ.clock < σ.deadline := by
            simp only [checkTimeout, decide_eq_true_eq] at h2
            omega
          obtain ⟨m1, m2, m3, _⟩ :=
            createFolders_deadline_spec env dId t σ (wfFolder_folders t hwf) hlt
          simp only [createFolders, h1, h2, Bool.false_eq_true, if_false, h3]
          exact ⟨m1, le_trans m3 (Nat.le_max_right _ _)⟩
  · obtain ⟨m1, m2, m3⟩ := copyFiles_deadline_spec env B t σ hB
    exact ⟨m1, m3⟩

/-- Witness for C5 on the concrete mixed scenario with budget 3 and cleanup bound 2. -/
theorem c5_deadline_gates_every_unit_of_work_witness :
    (createFolders mixedEnv mixedTree ⟨0, 3, 0⟩).st.clock ≤ max 0 3 ∧
    (copyFiles mixedEnv mixedTree ⟨0, 3, 0⟩).st.clock ≤ max 0 (3 + 2) :=
  ⟨(c5_deadline_gates_every_unit_of_work mixedEnv mixedTree ⟨0, 3, 0⟩ 2 (by decide) (by decide)).1.2,
   (c5_deadline_gates_every_unit_of_work mixedEnv mixedTree ⟨0, 3, 0⟩ 2 (by decide) (by decide)).2.2⟩


/-! ### Claim C8: monotonicity of `destId` -/

@[simp] theorem folderAt_nil (t : FolderState) : t.folderAt [] = some t := rfl

@[simp] theorem folderAt_node_cons (i n : String) (fc fo : Bool) (d : Option String)
    (fs : List FileState) (cs : List FolderState) (j : Nat) (q : List Nat) :
    (FolderState.node i n fc fo d fs cs).folderAt (j :: q) =
      (cs[j]?).bind fun c => c.folderAt q := by
  cases h : cs[j]? <;> simp [FolderState.folderAt, h]

@[simp] theorem destIdAt_nil (t : FolderState) : destIdAt t [] = some t.destId := rfl

@[simp] theorem destIdAt_node_cons (i n : String) (fc fo : Bool) (d : Option String)
    (fs : List FileState) (cs : List FolderState) (j : Nat) (q : List Nat) :
    destIdAt (.node i n fc fo d fs cs) (j :: q) = destIdAtL cs j q := by
  cases h : cs[j]? <;> simp [destIdAt, destIdAtL, h]

@[simp] theorem destIdAtL_nil (j : Nat) (q : List Nat) : destIdAtL [] j q = none := by
  simp [destIdAtL]

@[simp] theorem destIdAtL_cons_zero (c : FolderState) (rest : List FolderState)
    (q : List Nat) : destIdAtL (c :: rest) 0 q = destIdAt c q := by
  simp [destIdAtL]

@[simp] theorem destIdAtL_cons_succ (c : FolderState) (rest : List FolderState)
    (j : Nat) (q : List Nat) : destIdAtL (c :: rest) (j + 1) q = destIdAtL rest j q := by
  simp [destIdAtL]

@[simp] theorem fileDestAt_nil (t : FolderState) (i : Nat) :
    fileDestAt t [] i = filesDestAt t.files i := rfl

@[simp] theorem fileDestAt_node_cons (i0 n : String) (fc fo : Bool) (d : Option String)
    (fs : List FileState) (cs : List FolderState) (j : Nat) (q : List Nat) (i : Nat) :
    fileDestAt (.node i0 n fc fo d fs cs) (j :: q) i = fileDestAtL cs j q i := by
  cases h : cs[j]? <;> simp [fileDestAt, fileDestAtL, h]

@[simp] theorem fileDestAtL_nil (j : Nat) (q : List Nat) (i : Nat) :
    fileDestAtL [] j q i = none := by
  simp [fileDestAtL]

@[simp] theorem fileDestAtL_cons_zero (c : FolderState) (rest : List FolderState)
    (q : List Nat) (i : Nat) : fileDestAtL (c :: rest) 0 q i = fileDestAt c q i := by
  simp [fileDestAtL]

@[simp] theorem fileDestAtL_cons_succ (c : FolderState) (rest : List FolderState)
    (j : Nat) (q : List Nat) (i : Nat) :
    fileDestAtL (c :: rest) (j + 1) q i = fileDestAtL rest j q i := by
  simp [fileDestAtL]

theorem destIdAt_setDestId_cons (c : FolderState) (d' : Option String) (j : Nat)
    (q : List Nat) : destIdAt (c.setDestId d') (j :: q) = destIdAt c (j :: q) := by
  cases c with
  | node i n fc fo d fs cs => simp

theorem fileDestAt_setDestId (c : FolderState) (d' : Option String) (p : List Nat)
    (i : Nat) : fileDestAt (c.setDestId d') p i = fileDestAt c p i := by
  cases c with
  | node i0 n fc fo d fs cs =>
    cases p with
    | nil => simp
    | cons j q => simp

/-- `createFolders` never clears a recorded `destId`, on folders or files. -/
theorem createFoldersGo_mono (env : Env) : ∀ (dId : String) (t : FolderState) (σ : St),
    (t.destId = none ∨ t.destId = some dId) →
    (∀ p v, destIdAt t p = some (some v) →
      destIdAt (createFoldersGo env dId t σ).tree p = some (some v)) ∧
    (∀ p i v, fileDestAt t p i = some (some v) →
      fileDestAt (createFoldersGo env dId t σ).tree p i = some (some v)) := by
  refine createFoldersGo.induct env
    (fun dId t σ => (t.destId = none ∨ t.destId = some dId) →
      (∀ p v, destIdAt t p = some (some v) →
        destIdAt (createFoldersGo env dId t σ).tree p = some (some v)) ∧
      (∀ p i v, fileDestAt t p i = some (some v) →
        fileDestAt (createFoldersGo env dId t σ).tree p i = some (some v)))
    (fun dId cs σ =>
      (∀ j q v, destIdAtL cs j q = some (some v) →
        destIdAtL (createFoldersChildren env dId cs σ).trees j q = some (some v)) ∧
      (∀ j q i v, fileDestAtL cs j q i = some (some v) →
        fileDestAtL (createFoldersChildren env dId cs σ).trees j q i = some (some v)))
    ?_ ?_ ?_ ?_ ?_ ?_ ?_ ?_
  · intro dId σ i n fc fo d fs cs r hr ih hd
    have hr' : (createFoldersChildren env dId cs σ).out = COut.ok true := hr
    simp only [createFoldersGo, hr']
    constructor
    · intro p v hp
      cases p with
      | nil =>
        simp only [destIdAt_nil, FolderState.destId_node, Option.some_inj] at hp ⊢
        rcases hd with h | h <;> simp only [FolderState.destId_node] at h <;>
          rw [h] at hp
        · cases hp
        · exact Option.some.inj hp
      | cons j q =>
        simp only [destIdAt_node_cons] at hp ⊢
        exact ih.1 j q v hp
    · intro p i0 v hp
      cases p with
      | nil => simpa using hp
      | cons j q =>
        simp only [fileDestAt_node_cons] at hp ⊢
        exact ih.2 j q i0 v hp
  · intro dId σ i n fc fo d fs cs r hr ih hd
    have hr' : (createFoldersChildren env dId cs σ).out = COut.ok false := hr
    simp only [createFoldersGo, hr']
    constructor
    · intro p v hp
      cases p with
      | nil =>
        simp only [destIdAt_nil, FolderState.destId_node, Option.some_inj] at hp ⊢
        rcases hd with h | h <;> simp only [FolderState.destId_node] at h <;>
          rw [h] at hp
        · cases hp
        · exact Option.some.inj hp
      | cons j q =>
        simp only [destIdAt_node_cons] at hp ⊢
        exact ih.1 j q v hp
    · intro p i0 v hp
      cases p with
      | nil => simpa using hp
      | cons j q =>
        simp only [fileDestAt_node_cons] at hp ⊢
        exact ih.2 j q i0 v hp
  · intro dId σ i n fc fo d fs cs r hr ih hd
    have hr' : (createFoldersChildren env dId cs σ).out = COut.err := hr
    simp only [createFoldersGo, hr']
    constructor
    · intro p v hp
      cases p with
      | nil =>
        simp only [destIdAt_nil, FolderState.destId_node, Option.some_inj] at hp ⊢
        rcases hd with h | h <;> simp only [FolderState.destId_node] at h <;>
          rw [h] at hp
        · cases hp
        · exact Option.some.inj hp
      | cons j q =>
        simp only [destIdAt_node_cons] at hp ⊢
        exact ih.1 j q v hp
    · intro p i0 v hp
      cases p with
      | nil => simpa using hp
      | cons j q =>
        simp only [fileDestAt_node_cons] at hp ⊢
        exact ih.2 j q i0 v hp
  · intro dId σ
    constructor
    · intro j q v hp
      simp at hp
    · intro j q i v hp
      simp at hp
  · intro dId σ c rest hskip ih
    constructor
    · intro j q v hp
      simp only [createFoldersChildren, hskip, if_true]
      cases j with
      | zero => simpa using hp
      | succ j' =>
        simp only [destIdAtL_cons_succ] at hp ⊢
        exact ih.1 j' q v hp
    · intro j q i v hp
      simp only [createFoldersChildren, hskip, if_true]
      cases j with
      | zero => simpa using hp
      | succ j' =>
        simp only [fileDestAtL_cons_succ] at hp ⊢
        exact ih.2 j' q i v hp
  · -- create, recursion ok true
    intro dId σ c rest hskip op rc hrc ih1 ih2
    simp only [rc] at hrc ih2
    simp only [op] at hrc ih1 ih2
    have hnone : c.destId = none := by
      cases h : c.destId with
      | none => rfl
      | some v => simp [h] at hskip
    have hrct :
        (∀ p v, destIdAt c p = some (some v) →
          destIdAt (if c.foldersCopied = true then
              (⟨.ok true, c.setDestId (some (createFolderOp c.id dId c.name σ).newId),
                (createFolderOp c.id dId c.name σ).st, []⟩ : FRes)
            else if checkTimeout (createFolderOp c.id dId c.name σ).st = true then
              (⟨.ok false, c.setDestId (some (createFolderOp c.id dId c.name σ).newId),
                (createFolderOp c.id dId c.name σ).st, []⟩ : FRes)
            else createFoldersGo env (createFolderOp c.id dId c.name σ).newId c
              (createFolderOp c.id dId c.name σ).st).tree p = some (some v)) ∧
        (∀ p i v, fileDestAt c p i = some (some v) →
          fileDestAt (if c.foldersCopied = true then
              (⟨.ok true, c.setDestId (some (createFolderOp c.id dId c.name σ).newId),
                (createFolderOp c.id dId c.name σ).st, []⟩ : FRes)
            else if checkTimeout (createFolderOp c.id dId c.name σ).st = true then
              (⟨.ok false, c.setDestId (some (createFolderOp c.id dId c.name σ).newId),
                (createFolderOp c.id dId c.name σ).st, []⟩ : FRes)
            else createFoldersGo env (createFolderOp c.id dId c.name σ).newId c
              (createFolderOp c.id dId c.name σ).st).tree p i = some (some v)) := by
      by_cases hfo : c.foldersCopied = true
      · rw [if_pos hfo]
        constructor
        · intro p v hp
          cases p with
          | nil =>
            rw [destIdAt_nil, hnone] at hp
            cases hp
          | cons j q =>
            rw [destIdAt_setDestId_cons]
            exact hp
        · intro p i v hp
          rw [fileDestAt_setDestId]
          exact hp
      · rw [if_neg hfo]
        by_cases hto : checkTimeout (createFolderOp c.id dId c.name σ).st = true
        · rw [if_pos hto]
          constructor
          · intro p v hp
            cases p with
            | nil =>
              rw [destIdAt_nil, hnone] at hp
              cases hp
            | cons j q =>
              rw [destIdAt_setDestId_cons]
              exact hp
          · intro p i v hp
            rw [fileDestAt_setDestId]
            exact hp
        · rw [if_neg hto]
          exact ih1 (Or.inl hnone)
    have hnotsome : c.destId.isSome = false := by simp [hnone]
    constructor
    · intro j q v hp
      simp only [createFoldersChildren, hnotsome, Bool.false_eq_true, if_false, hrc]
      cases j with
      | zero =>
        simp only [destIdAtL_cons_zero] at hp ⊢
        exact hrct.1 q v hp
      | succ j' =>
        simp only [destIdAtL_cons_succ] at hp ⊢
        exact ih2.1 j' q v hp
    · intro j q i v hp
      simp only [createFoldersChildren, hnotsome, Bool.false_eq_true, if_false, hrc]
      cases j with
      | zero =>
        simp only [fileDestAtL_cons_zero] at hp ⊢
        exact hrct.2 q i v hp
      | succ j' =>
        simp only [fileDestAtL_cons_succ] at hp ⊢
        exact ih2.2 j' q i v hp
  · -- create, recursion ok false
    intro dId σ c rest hskip op rc hrc ih1
    simp only [rc] at hrc
    simp only [op] at hrc ih1
    have hnone : c.destId = none := by
      cases h : c.destId with
      | none => rfl
      | some v => simp [h] at hskip
    have hrct :
        (∀ p v, destIdAt c p = some (some v) →
          destIdAt (if c.foldersCopied = true then
              (⟨.ok true, c.setDestId (some (createFolderOp c.id dId c.name σ).newId),
                (createFolderOp c.id dId c.name σ).st, []⟩ : FRes)
            else if checkTimeout (createFolderOp c.id dId c.name σ).st = true then
              (⟨.ok false, c.setDestId (some (createFolderOp c.id dId c.name σ).newId),
                (createFolderOp c.id dId c.name σ).st, []⟩ : FRes)
            else createFoldersGo env (createFolderOp c.id dId c.name σ).newId c
              (createFolderOp c.id dId c.name σ).st).tree p = some (some v)) ∧
        (∀ p i v, fileDestAt c p i = some (some v) →
          fileDestAt (if c.foldersCopied = true then
              (⟨.ok true, c.setDestId (some (createFolderOp c.id dId c.name σ).newId),
                (createFolderOp c.id dId c.name σ).st, []⟩ : FRes)
            else if checkTimeout (createFolderOp c.id dId c.name σ).st = true then
              (⟨.ok false, c.setDestId (some (createFolderOp c.id dId c.name σ).newId),
                (createFolderOp c.id dId c.name σ).st, []⟩ : FRes)
            else createFoldersGo env (createFolderOp c.id dId c.name σ).newId c
              (createFolderOp c.id dId c.name σ).st).tree p i = some (some v)) := by
      by_cases hfo : c.foldersCopied = true
      · rw [if_pos hfo]
        constructor
        · intro p v hp
          cases p with
          | nil =>
            rw [destIdAt_nil, hnone] at hp
            cases hp
          | cons j q =>
            rw [destIdAt_setDestId_cons]
            exact hp
        · intro p i v hp
          rw [fileDestAt_setDestId]
          exact hp
      · rw [if_neg hfo]
        by_cases hto : checkTimeout (createFolderOp c.id dId c.name σ).st = true
        · rw [if_pos hto]
          constructor
          · intro p v hp
            cases p with
            | nil =>
              rw [destIdAt_nil, hnone] at hp
              cases hp
            | cons j q =>
              rw [destIdAt_setDestId_cons]
              exact hp
          · intro p i v hp
            rw [fileDestAt_setDestId]
            exact hp
        · rw [if_neg hto]
          exact ih1 (Or.inl hnone)
    have hnotsome : c.destId.isSome = false := by simp [hnone]
    constructor
    · intro j q v hp
      simp only [createFoldersChildren, hnotsome, Bool.false_eq_true, if_false, hrc]
      cases j with
      | zero =>
        simp only [destIdAtL_cons_zero] at hp ⊢
        exact hrct.1 q v hp
      | succ j' =>
        simp only [destIdAtL_cons_succ] at hp ⊢
        exact hp
    · intro j q i v hp
      simp only [createFoldersChildren, hnotsome, Bool.false_eq_true, if_false, hrc]
      cases j with
      | zero =>
        simp only [fileDestAtL_cons_zero] at hp ⊢
        exact hrct.2 q i v hp
      | succ j' =>
        simp only [fileDestAtL_cons_succ] at hp ⊢
        exact hp
  · -- create, recursion err
    intro dId σ c rest hskip op rc hrc ih1
    simp only [rc] at hrc
    simp only [op] at hrc ih1
    have hnone : c.destId = none := by
      cases h : c.destId with
      | none => rfl
      | some v => simp [h] at hskip
    have hrct :
        (∀ p v, destIdAt c p = some (some v) →
          destIdAt (if c.foldersCopied = true then
              (⟨.ok true, c.setDestId (some (createFolderOp c.id dId c.name σ).newId),
                (createFolderOp c.id dId c.name σ).st, []⟩ : FRes)
            else if checkTimeout (createFolderOp c.id dId c.name σ).st = true then
              (⟨.ok false, c.setDestId (some (createFolderOp c.id dId c.name σ).newId),
                (createFolderOp c.id dId c.name σ).st, []⟩ : FRes)
            else createFoldersGo env (createFolderOp c.id dId c.name σ).newId c
              (createFolderOp c.id dId c.name σ).st).tree p = some (some v)) ∧
        (∀ p i v, fileDestAt c p i = some (some v) →
          fileDestAt (if c.foldersCopied = true then
              (⟨.ok true, c.setDestId (some (createFolderOp c.id dId c.name σ).newId),
                (createFolderOp c.id dId c.name σ).st, []⟩ : FRes)
            else if checkTimeout (createFolderOp c.id dId c.name σ).st = true then
              (⟨.ok false, c.setDestId (some (createFolderOp c.id dId c.name σ).newId),
                (createFolderOp c.id dId c.name σ).st, []⟩ : FRes)
            else createFoldersGo env (createFolderOp c.id dId c.name σ).newId c
              (createFolderOp c.id dId c.name σ).st).tree p i = some (some v)) := by
      by_cases hfo : c.foldersCopied = true
      · rw [if_pos hfo]
        constructor
        · intro p v hp
          cases p with
          | nil =>
            rw [destIdAt_nil, hnone] at hp
            cases hp
          | cons j q =>
            rw [destIdAt_setDestId_cons]
            exact hp
        · intro p i v hp
          rw [fileDestAt_setDestId]
          exact hp
      · rw [if_neg hfo]
        by_cases hto : checkTimeout (createFolderOp c.id dId c.name σ).st = true
        · rw [if_pos hto]
          constructor
          · intro p v hp
            cases p with
            | nil =>
              rw [destIdAt_nil, hnone] at hp
              cases hp
            | cons j q =>
              rw [destIdAt_setDestId_cons]
              exact hp
          · intro p i v hp
            rw [fileDestAt_setDestId]
            exact hp
        · rw [if_neg hto]
          exact ih1 (Or.inl hnone)
    have hnotsome : c.destId.isSome = false := by simp [hnone]
    constructor
    · intro j q v hp
      simp only [createFoldersChildren, hnotsome, Bool.false_eq_true, if_false, hrc]
      cases j with
      | zero =>
        simp only [destIdAtL_cons_zero] at hp ⊢
        exact hrct.1 q v hp
      | succ j' =>
        simp only [destIdAtL_cons_succ] at hp ⊢
        exact hp
    · intro j q i v hp
      simp only [createFoldersChildren, hnotsome, Bool.false_eq_true, if_false, hrc]
      cases j with
      | zero =>
        simp only [fileDestAtL_cons_zero] at hp ⊢
        exact hrct.2 q i v hp
      | succ j' =>
        simp only [fileDestAtL_cons_succ] at hp ⊢
        exact hp

@[simp] theorem filesDestAt_nil (i : Nat) : filesDestAt [] i = none := by
  simp [filesDestAt]

@[simp] theorem filesDestAt_cons_zero (f : FileState) (rest : List FileState) :
    filesDestAt (f :: rest) 0 = some f.destId := by
  simp [filesDestAt]

@[simp] theorem filesDestAt_cons_succ (f : FileState) (rest : List FileState) (i : Nat) :
    filesDestAt (f :: rest) (i + 1) = filesDestAt rest i := by
  simp [filesDestAt]

/-- The file loop skips files whose `destId` is set and never clears one. -/
theorem copyFilesLoop_mono (env : Env) (parentDestId : String) :
    ∀ (fs : List FileState) (σ : St) (i : Nat) (v : String),
      filesDestAt fs i = some (some v) →
      filesDestAt (copyFilesLoop env parentDestId fs σ).files i = some (some v) := by
  intro fs
  induction fs with
  | nil =>
    intro σ i v hp
    simp at hp
  | cons f rest ih =>
    intro σ i v hp
    by_cases hskip : f.destId.isSome = true
    · simp only [copyFilesLoop, hskip, if_true]
      cases i with
      | zero => simpa using hp
      | succ i' =>
        simp only [filesDestAt_cons_succ] at hp ⊢
        exact ih σ i' v hp
    · by_cases hto : checkTimeout σ = true
      · simp only [copyFilesLoop, hskip, Bool.false_eq_true, if_false, hto, if_true]
        exact hp
      · simp only [copyFilesLoop, hskip, Bool.false_eq_true, if_false, hto]
        cases i with
        | zero =>
          simp only [filesDestAt_cons_zero, Option.some_inj] at hp
          have : f.destId = none := by
            cases h : f.destId with
            | none => rfl
            | some w => simp [h] at hskip
          rw [this] at hp
          cases hp
        | succ i' =>
          simp only [filesDestAt_cons_succ] at hp ⊢
          exact ih _ i' v hp

/-- `copyFiles` never clears a recorded `destId`, on folders or files. -/
theorem copyFiles_mono (env : Env) : ∀ (t : FolderState) (σ : St),
    (∀ p v, destIdAt t p = some (some v) →
      destIdAt (copyFiles env t σ).tree p = some (some v)) ∧
    (∀ p i v, fileDestAt t p i = some (some v) →
      fileDestAt (copyFiles env t σ).tree p i = some (some v)) := by
  refine copyFiles.induct env
    (fun t σ =>
      (∀ p v, destIdAt t p = some (some v) →
        destIdAt (copyFiles env t σ).tree p = some (some v)) ∧
      (∀ p i v, fileDestAt t p i = some (some v) →
        fileDestAt (copyFiles env t σ).tree p i = some (some v)))
    (fun cs σ =>
      (∀ j q v, destIdAtL cs j q = some (some v) →
        destIdAtL (copyFilesChildren env cs σ).trees j q = some (some v)) ∧
      (∀ j q i v, fileDestAtL cs j q i = some (some v) →
        fileDestAtL (copyFilesChildren env cs σ).trees j q i = some (some v)))
    ?_ ?_ ?_ ?_ ?_ ?_ ?_ ?_ ?_ ?_ ?_
  · intro σ i n fo d fs cs
    constructor
    · intro p v hp
      simpa [copyFiles] using hp
    · intro p i0 v hp
      simpa [copyFiles] using hp
  · intro σ i n fc fo d fs cs hfc hto
    constructor
    · intro p v hp
      simpa [copyFiles, hfc, hto] using hp
    · intro p i0 v hp
      simpa [copyFiles, hfc, hto] using hp
  · intro σ i n fc fo fs cs hfc hto
    constructor
    · intro p v hp
      simpa [copyFiles, hfc, hto] using hp
    · intro p i0 v hp
      simpa [copyFiles, hfc, hto] using hp
  · intro σ i n fc fo fs cs hfc hto dId rf hrf rc hrc ih
    simp only [rf] at hrc ih
    have hrf' : (copyFilesLoop env dId fs σ).ok = true := hrf
    have hrc' : (copyFilesChildren env cs (copyFilesLoop env dId fs σ).st).out =
      COut.ok true := hrc
    constructor
    · intro p v hp
      simp only [copyFiles, hfc, hto, Bool.false_eq_true, if_false, hrf', if_true, hrc']
      cases p with
      | nil => simpa using hp
      | cons j q =>
        simp only [destIdAt_node_cons] at hp ⊢
        exact ih.1 j q v hp
    · intro p i0 v hp
      simp only [copyFiles, hfc, hto, Bool.false_eq_true, if_false, hrf', if_true, hrc']
      cases p with
      | nil =>
        simp only [fileDestAt_nil, FolderState.files_node] at hp ⊢
        exact copyFilesLoop_mono env dId fs σ i0 v hp
      | cons j q =>
        simp only [fileDestAt_node_cons] at hp ⊢
        exact ih.2 j q i0 v hp
  · intro σ i n fc fo fs cs hfc hto dId rf hrf rc hrc ih
    simp only [rf] at hrc ih
    have hrf' : (copyFilesLoop env dId fs σ).ok = true := hrf
    have hrc' : (copyFilesChildren env cs (copyFilesLoop env dId fs σ).st).out =
      COut.ok false := hrc
    constructor
    · intro p v hp
      simp only [copyFiles, hfc, hto, Bool.false_eq_true, if_false, hrf', if_true, hrc']
      cases p with
      | nil => simpa using hp
      | cons j q =>
        simp only [destIdAt_node_cons] at hp ⊢
        exact ih.1 j q v hp
    · intro p i0 v hp
      simp only [copyFiles, hfc, hto, Bool.false_eq_true, if_false, hrf', if_true, hrc']
      cases p with
      | nil =>
        simp only [fileDestAt_nil, FolderState.files_node] at hp ⊢
        exact copyFilesLoop_mono env dId fs σ i0 v hp
      | cons j q =>
        simp only [fileDestAt_node_cons] at hp ⊢
        exact ih.2 j q i0 v hp
  · intro σ i n fc fo fs cs hfc hto dId rf hrf rc hrc ih
    simp only [rf] at hrc ih
    have hrf' : (copyFilesLoop env dId fs σ).ok = true := hrf
    have hrc' : (copyFilesChildren env cs (copyFilesLoop env dId fs σ).st).out =
      COut.err := hrc
    constructor
    · intro p v hp
      simp only [copyFiles, hfc, hto, Bool.false_eq_true, if_false, hrf', if_true, hrc']
      cases p with
      | nil => simpa using hp
      | cons j q =>
        simp only [destIdAt_node_cons] at hp ⊢
        exact ih.1 j q v hp
    · intro p i0 v hp
      simp only [copyFiles, hfc, hto, Bool.false_eq_true, if_false, hrf', if_true, hrc']
      cases p with
      | nil =>
        simp only [fileDestAt_nil, FolderState.files_node] at hp ⊢
        exact copyFilesLoop_mono env dId fs σ i0 v hp
      | cons j q =>
        simp only [fileDestAt_node_cons] at hp ⊢
        exact ih.2 j q i0 v hp
  · intro σ i n fc fo fs cs hfc hto dId rf hrf
    have hrf' : (copyFilesLoop env dId fs σ).ok = false := by
      have := hrf
      simp only [Bool.not_eq_true] at this
      exact this
    constructor
    · intro p v hp
      simp only [copyFiles, hfc, hto, Bool.false_eq_true, if_false, hrf']
      cases p with
      | nil => simpa using hp
      | cons j q =>
        simp only [destIdAt_node_cons] at hp ⊢
        exact hp
    · intro p i0 v hp
      simp only [copyFiles, hfc, hto, Bool.false_eq_true, if_false, hrf']
      cases p with
      | nil =>
        simp only [fileDestAt_nil, FolderState.files_node] at hp ⊢
        exact copyFilesLoop_mono env dId fs σ i0 v hp
      | cons j q =>
        simp only [fileDestAt_node_cons] at hp ⊢
        exact hp
  · intro σ
    constructor
    · intro j q v hp
      simp at hp
    · intro j q i v hp
      simp at hp
  · intro σ c rest rc hrc ih1 ih2
    simp only [rc] at hrc ih2
    have hrc' : (copyFiles env c σ).out = COut.ok true := hrc
    constructor
    · intro j q v hp
      simp only [copyFilesChildren, hrc']
      cases j with
      | zero =>
        simp only [destIdAtL_cons_zero] at hp ⊢
        exact ih1.1 q v hp
      | succ j' =>
        simp only [destIdAtL_cons_succ] at hp ⊢
        exact ih2.1 j' q v hp
    · intro j q i v hp
      simp only [copyFilesChildren, hrc']
      cases j with
      | zero =>
        simp only [fileDestAtL_cons_zero] at hp ⊢
        exact ih1.2 q i v hp
      | succ j' =>
        simp only [fileDestAtL_cons_succ] at hp ⊢
        exact ih2.2 j' q i v hp
  · intro σ c rest rc hrc ih1
    simp only [rc] at hrc
    have hrc' : (copyFiles env c σ).out = COut.ok false := hrc
    constructor
    · intro j q v hp
      simp only [copyFilesChildren, hrc']
      cases j with
      | zero =>
        simp only [destIdAtL_cons_zero] at hp ⊢
        exact ih1.1 q v hp
      | succ j' =>
        simp only [destIdAtL_cons_succ] at hp ⊢
        exact hp
    · intro j q i v hp
      simp only [copyFilesChildren, hrc']
      cases j with
      | zero =>
        simp only [fileDestAtL_cons_zero] at hp ⊢
        exact ih1.2 q i v hp
      | succ j' =>
        simp only [fileDestAtL_cons_succ] at hp ⊢
        exact hp
  · intro σ c rest rc hrc ih1
    simp only [rc] at hrc
    have hrc' : (copyFiles env c σ).out = COut.err := hrc
    constructor
    · intro j q v hp
      simp only [copyFilesChildren, hrc']
      cases j with
      | zero =>
        simp only [destIdAtL_cons_zero] at hp ⊢
        exact ih1.1 q v hp
      | succ j' =>
        simp only [destIdAtL_cons_succ] at hp ⊢
        exact hp
    · intro j q i v hp
      simp only [copyFilesChildren, hrc']
      cases j with
      | zero =>
        simp only [fileDestAtL_cons_zero] at hp ⊢
        exact ih1.2 q i v hp
      | succ j' =>
        simp only [fileDestAtL_cons_succ] at hp ⊢
        exact hp

/-! Flattened folder/file collections -/

@[simp] theorem treeFolders_node (i n : String) (fc fo : Bool) (d : Option String)
    (fs : List FileState) (cs : List FolderState) :
    treeFolders (.node i n fc fo d fs cs) = .node i n fc fo d fs cs :: treeFoldersL cs := by
  simp [treeFolders]

@[simp] theorem treeFoldersL_nil : treeFoldersL [] = [] := by simp [treeFoldersL]

@[simp] theorem treeFoldersL_cons (c : FolderState) (rest : List FolderState) :
    treeFoldersL (c :: rest) = treeFolders c ++ treeFoldersL rest := by
  simp [treeFoldersL]

theorem uncreatedFolderIds_node (i n : String) (fc fo : Bool) (d : Option String)
    (fs : List FileState) (cs : List FolderState) :
    uncreatedFolderIds (.node i n fc fo d fs cs) =
      (if d.isNone = true then [i] else []) ++ uncreatedFolderIdsL cs := by
  cases d <;>
    simp [uncreatedFolderIds, uncreatedFolderIdsL, List.filter_cons]

theorem uncreatedFolderIdsL_cons (c : FolderState) (rest : List FolderState) :
    uncreatedFolderIdsL (c :: rest) = uncreatedFolderIds c ++ uncreatedFolderIdsL rest := by
  simp [uncreatedFolderIds, uncreatedFolderIdsL, List.filter_append]

@[simp] theorem uncreatedFolderIdsL_nil : uncreatedFolderIdsL [] = [] := by
  simp [uncreatedFolderIdsL]

theorem uncreatedFolderIdsL_subset (c : FolderState) (h : c.destId = none) :
    c.id ∈ uncreatedFolderIds c := by
  cases c with
  | node i n fc fo d fs cs =>
    simp only [FolderState.destId_node] at h
    subst h
    simp [uncreatedFolderIds_node]

theorem uncreatedFolderIds_sub_of_children (c : FolderState) (x : String)
    (h : x ∈ uncreatedFolderIdsL c.folders) : x ∈ uncreatedFolderIds c := by
  cases c with
  | node i n fc fo d fs cs =>
    simp only [FolderState.folders_node] at h
    rw [uncreatedFolderIds_node]
    exact List.mem_append_right _ h

/-- `createFolders` issues folder creations only for folders whose `destId` was absent
at the start of the call. -/
theorem createFoldersGo_targets (env : Env) :
    ∀ (dId : String) (t : FolderState) (σ : St),
      ∀ e ∈ (createFoldersGo env dId t σ).events, ∀ s, eventSrcFolderId e = some s →
        s ∈ uncreatedFolderIdsL t.folders := by
  refine createFoldersGo.induct env
    (fun dId t σ => ∀ e ∈ (createFoldersGo env dId t σ).events, ∀ s,
      eventSrcFolderId e = some s → s ∈ uncreatedFolderIdsL t.folders)
    (fun dId cs σ => ∀ e ∈ (createFoldersChildren env dId cs σ).events, ∀ s,
      eventSrcFolderId e = some s → s ∈ uncreatedFolderIdsL cs)
    ?_ ?_ ?_ ?_ ?_ ?_ ?_ ?_
  · intro dId σ i n fc fo d fs cs r hr ih
    have hr' : (createFoldersChildren env dId cs σ).out = COut.ok true := hr
    intro e he s hs
    simp only [createFoldersGo, hr'] at he
    simpa using ih e he s hs
  · intro dId σ i n fc fo d fs cs r hr ih
    have hr' : (createFoldersChildren env dId cs σ).out = COut.ok false := hr
    intro e he s hs
    simp only [createFoldersGo, hr'] at he
    simpa using ih e he s hs
  · intro dId σ i n fc fo d fs cs r hr ih
    have hr' : (createFoldersChildren env dId cs σ).out = COut.err := hr
    intro e he s hs
    simp only [createFoldersGo, hr'] at he
    simpa using ih e he s hs
  · intro dId σ e he
    simp [createFoldersChildren] at he
  · intro dId σ c rest hskip ih
    intro e he s hs
    simp only [createFoldersChildren, hskip, if_true] at he
    rw [uncreatedFolderIdsL_cons]
    exact List.mem_append_right _ (ih e he s hs)
  · intro dId σ c rest hskip op rc hrc ih1 ih2
    simp only [rc] at hrc ih2
    simp only [op] at hrc ih1 ih2
    have hnone : c.destId = none := by
      cases h : c.destId with
      | none => rfl
      | some v => simp [h] at hskip
    have hnotsome : c.destId.isSome = false := by simp [hnone]
    have hrcev : ∀ e ∈
        (if c.foldersCopied = true then
          (⟨.ok true, c.setDestId (some (createFolderOp c.id dId c.name σ).newId),
            (createFolderOp c.id dId c.name σ).st, []⟩ : FRes)
        else if checkTimeout (createFolderOp c.id dId c.name σ).st = true then
          (⟨.ok false, c.setDestId (some (createFolderOp c.id dId c.name σ).newId),
            (createFolderOp c.id dId c.name σ).st, []⟩ : FRes)
        else createFoldersGo env (createFolderOp c.id dId c.name σ).newId c
          (createFolderOp c.id dId c.name σ).st).events,
        ∀ s, eventSrcFolderId e = some s → s ∈ uncreatedFolderIds c := by
      by_cases hfo : c.foldersCopied = true
      · rw [if_pos hfo]
        intro e he
        simp at he
      · rw [if_neg hfo]
        by_cases hto : checkTimeout (createFolderOp c.id dId c.name σ).st = true
        · rw [if_pos hto]
          intro e he
          simp at he
        · rw [if_neg hto]
          intro e he s hs
          exact uncreatedFolderIds_sub_of_children c s (ih1 e he s hs)
    intro e he s hs
    simp only [createFoldersChildren, hnotsome, Bool.false_eq_true, if_false, hrc,
      List.mem_append] at he
    rw [uncreatedFolderIdsL_cons]
    rcases he with (h | h) | h
    · simp only [createFolderOp, tick, allocId, List.mem_singleton] at h
      subst h
      simp only [eventSrcFolderId, Option.some_inj] at hs
      subst hs
      exact List.mem_append_left _ (uncreatedFolderIdsL_subset c hnone)
    · exact List.mem_append_left _ (hrcev e h s hs)
    · exact List.mem_append_right _ (ih2 e h s hs)
  · intro dId σ c rest hskip op rc hrc ih1
    simp only [rc] at hrc
    simp only [op] at hrc ih1
    have hnone : c.destId = none := by
      cases h : c.destId with
      | none => rfl
      | some v => simp [h] at hskip
    have hnotsome : c.destId.isSome = false := by simp [hnone]
    have hrcev : ∀ e ∈
        (if c.foldersCopied = true then
          (⟨.ok true, c.setDestId (some (createFolderOp c.id dId c.name σ).newId),
            (createFolderOp c.id dId c.name σ).st, []⟩ : FRes)
        else if checkTimeout (createFolderOp c.id dId c.name σ).st = true then
          (⟨.ok false, c.setDestId (some (createFolderOp c.id dId c.name σ).newId),
            (createFolderOp c.id dId c.name σ).st, []⟩ : FRes)
        else createFoldersGo env (createFolderOp c.id dId c.name σ).newId c
          (createFolderOp c.id dId c.name σ).st).events,
        ∀ s, eventSrcFolderId e = some s → s ∈ uncreatedFolderIds c := by
      by_cases hfo : c.foldersCopied = true
      · rw [if_pos hfo]
        intro e he
        simp at he
      · rw [if_neg hfo]
        by_cases hto : checkTimeout (createFolderOp c.id dId c.name σ).st = true
        · rw [if_pos hto]
          intro e he
          simp at he
        · rw [if_neg hto]
          intro e he s hs
          exact uncreatedFolderIds_sub_of_children c s (ih1 e he s hs)
    intro e he s hs
    simp only [createFoldersChildren, hnotsome, Bool.false_eq_true, if_false, hrc,
      List.mem_append] at he
    rw [uncreatedFolderIdsL_cons]
    rcases he with h | h
    · simp only [createFolderOp, tick, allocId, List.mem_singleton] at h
      subst h
      simp only [eventSrcFolderId, Option.some_inj] at hs
      subst hs
      exact List.mem_append_left _ (uncreatedFolderIdsL_subset c hnone)
    · exact List.mem_append_left _ (hrcev e h s hs)
  · intro dId σ c rest hskip op rc hrc ih1
    simp only [rc] at hrc
    simp only [op] at hrc ih1
    have hnone : c.destId = none := by
      cases h : c.destId with
      | none => rfl
      | some v => simp [h] at hskip
    have hnotsome : c.destId.isSome = false := by simp [hnone]
    have hrcev : ∀ e ∈
        (if c.foldersCopied = true then
          (⟨.ok true, c.setDestId (some (createFolderOp c.id dId c.name σ).newId),
            (createFolderOp c.id dId c.name σ).st, []⟩ : FRes)
        else if checkTimeout (createFolderOp c.id dId c.name σ).st = true then
          (⟨.ok false, c.setDestId (some (createFolderOp c.id dId c.name σ).newId),
            (createFolderOp c.id dId c.name σ).st, []⟩ : FRes)
        else createFoldersGo env (createFolderOp c.id dId c.name σ).newId c
          (createFolderOp c.id dId c.name σ).st).events,
        ∀ s, eventSrcFolderId e = some s → s ∈ uncreatedFolderIds c := by
      by_cases hfo : c.foldersCopied = true
      · rw [if_pos hfo]
        intro e he
        simp at he
      · rw [if_neg hfo]
        by_cases hto : checkTimeout (createFolderOp c.id dId c.name σ).st = true
        · rw [if_pos hto]
          intro e he
          simp at he
        · rw [if_neg hto]
          intro e he s hs
          exact uncreatedFolderIds_sub_of_children c s (ih1 e he s hs)
    intro e he s hs
    simp only [createFoldersChildren, hnotsome, Bool.false_eq_true, if_false, hrc,
      List.mem_append] at he
    rw [uncreatedFolderIdsL_cons]
    rcases he with h | h
    · simp only [createFolderOp, tick, allocId, List.mem_singleton] at h
      subst h
      simp only [eventSrcFolderId, Option.some_inj] at hs
      subst hs
      exact List.mem_append_left _ (uncreatedFolderIdsL_subset c hnone)
    · exact List.mem_append_left _ (hrcev e h s hs)

@[simp] theorem uncopiedIdsOf_nil : uncopiedIdsOf [] = [] := by simp [uncopiedIdsOf]

theorem uncopiedIdsOf_cons (f : FileState) (rest : List FileState) :
    uncopiedIdsOf (f :: rest) =
      (if f.destId.isNone = true then [f.id] else []) ++ uncopiedIdsOf rest := by
  by_cases h : f.destId.isNone = true <;>
    simp [uncopiedIdsOf, List.filter_cons, h]

theorem uncopiedIdsOf_append (a b : List FileState) :
    uncopiedIdsOf (a ++ b) = uncopiedIdsOf a ++ uncopiedIdsOf b := by
  simp [uncopiedIdsOf, List.filter_append]

theorem cleanupForms_src (env : Env) (urls : List String) (σ : St) :
    ∀ e ∈ (cleanupForms env urls σ).2, eventSrcFileId e = none := by
  induction urls generalizing σ with
  | nil => simp [cleanupForms]
  | cons u rest ih =>
    intro e he
    simp only [cleanupForms, List.mem_cons] at he
    rcases he with h | h | h
    · subst h; rfl
    · subst h; rfl
    · exact ih _ e h

theorem handleCopySpreadsheet_src (env : Env) (fileId parentDestId : String) (σ : St) :
    ∀ e ∈ (handleCopySpreadsheet env fileId parentDestId σ).events,
      ∀ s, eventSrcFileId e = some s → s = fileId := by
  intro e he s hs
  simp only [handleCopySpreadsheet] at he
  split at he
  · simp only [List.mem_cons] at he
    rcases he with h | h
    · subst h
      simpa [eventSrcFileId] using hs.symm
    · rw [cleanupForms_src env _ _ e h] at hs
      cases hs
  · simp only [List.mem_singleton] at he
    subst he
    simpa [eventSrcFileId] using hs.symm

theorem handleFormatConversion_src (env : Env) (fileId parentDestId : String) (σ : St) :
    ∀ e ∈ (handleFormatConversion env fileId parentDestId σ).events,
      ∀ s, eventSrcFileId e = some s → s = fileId := by
  intro e he s hs
  simp only [handleFormatConversion] at he
  split at he
  · simp only [withBackoffCall, markBackoff, List.map, List.mem_singleton] at he
    subst he
    simpa [eventSrcFileId] using hs.symm
  · simp only [defaultCopy, List.mem_singleton] at he
    subst he
    simpa [eventSrcFileId] using hs.symm

/-- The file loop issues copies only for files whose `destId` was absent at the start of
the call. -/
theorem copyFilesLoop_targets (env : Env) (parentDestId : String) :
    ∀ (fs : List FileState) (σ : St),
      ∀ e ∈ (copyFilesLoop env parentDestId fs σ).events, ∀ s,
        eventSrcFileId e = some s → s ∈ uncopiedIdsOf fs := by
  intro fs
  induction fs with
  | nil =>
    intro σ e he
    simp [copyFilesLoop] at he
  | cons f rest ih =>
    intro σ e he s hs
    rw [uncopiedIdsOf_cons]
    by_cases hskip : f.destId.isSome = true
    · simp only [copyFilesLoop, hskip, if_true] at he
      exact List.mem_append_right _ (ih σ e he s hs)
    · by_cases hto : checkTimeout σ = true
      · simp only [copyFilesLoop, hskip, Bool.false_eq_true, if_false, hto, if_true] at he
        simp at he
      · have hnone : f.destId.isNone = true := by
          cases h : f.destId with
          | none => rfl
          | some w => simp [h] at hskip
        simp only [copyFilesLoop, hskip, Bool.false_eq_true, if_false, hto,
          List.mem_append] at he
        rcases he with h | h
        · apply List.mem_append_left
          simp only [hnone, if_true, List.mem_singleton]
          revert h
          split
          · intro h
            exact handleCopySpreadsheet_src env f.id parentDestId σ e h s hs
          · split
            · intro h
              exact handleFormatConversion_src env f.id parentDestId σ e h s hs
            · intro h
              simp only [List.mem_singleton] at h
              subst h
              simpa [eventSrcFileId] using hs.symm
        · exact List.mem_append_right _ (ih _ e h s hs)

/-- `copyFiles` issues copies only for files whose `destId` was absent at the start of
the call. -/
theorem copyFiles_targets (env : Env) : ∀ (t : FolderState) (σ : St),
    ∀ e ∈ (copyFiles env t σ).events, ∀ s, eventSrcFileId e = some s →
      s ∈ uncopiedFileIds t := by
  refine copyFiles.induct env
    (fun t σ => ∀ e ∈ (copyFiles env t σ).events, ∀ s, eventSrcFileId e = some s →
      s ∈ uncopiedFileIds t)
    (fun cs σ => ∀ e ∈ (copyFilesChildren env cs σ).events, ∀ s,
      eventSrcFileId e = some s → s ∈ uncopiedIdsOf (treeFilesL cs))
    ?_ ?_ ?_ ?_ ?_ ?_ ?_ ?_ ?_ ?_ ?_
  · intro σ i n fo d fs cs e he
    simp [copyFiles] at he
  · intro σ i n fc fo d fs cs hfc hto e he
    simp [copyFiles, hfc, hto] at he
  · intro σ i n fc fo fs cs hfc hto e he
    simp [copyFiles, hfc, hto] at he
  · intro σ i n fc fo fs cs hfc hto dId rf hrf rc hrc ih
    simp only [rf] at hrc ih
    have hrf' : (copyFilesLoop env dId fs σ).ok = true := hrf
    have hrc' : (copyFilesChildren env cs (copyFilesLoop env dId fs σ).st).out =
      COut.ok true := hrc
    intro e he s hs
    simp only [copyFiles, hfc, hto, Bool.false_eq_true, if_false, hrf', if_true, hrc',
      List.mem_append] at he
    simp only [uncopiedFileIds, treeFiles_node, uncopiedIdsOf_append, List.mem_append]
    rcases he with h | h
    · exact Or.inl (copyFilesLoop_targets env dId fs σ e h s hs)
    · exact Or.inr (ih e h s hs)
  · intro σ i n fc fo fs cs hfc hto dId rf hrf rc hrc ih
    simp only [rf] at hrc ih
    have hrf' : (copyFilesLoop env dId fs σ).ok = true := hrf
    have hrc' : (copyFilesChildren env cs (copyFilesLoop env dId fs σ).st).out =
      COut.ok false := hrc
    intro e he s hs
    simp only [copyFiles, hfc, hto, Bool.false_eq_true, if_false, hrf', if_true, hrc',
      List.mem_append] at he
    simp only [uncopiedFileIds, treeFiles_node, uncopiedIdsOf_append, List.mem_append]
    rcases he with h | h
    · exact Or.inl (copyFilesLoop_targets env dId fs σ e h s hs)
    · exact Or.inr (ih e h s hs)
  · intro σ i n fc fo fs cs hfc hto dId rf hrf rc hrc ih
    simp only [rf] at hrc ih
    have hrf' : (copyFilesLoop env dId fs σ).ok = true := hrf
    have hrc' : (copyFilesChildren env cs (copyFilesLoop env dId fs σ).st).out =
      COut.err := hrc
    intro e he s hs
    simp only [copyFiles, hfc, hto, Bool.false_eq_true, if_false, hrf', if_true, hrc',
      List.mem_append] at he
    simp only [uncopiedFileIds, treeFiles_node, uncopiedIdsOf_append, List.mem_append]
    rcases he with h | h
    · exact Or.inl (copyFilesLoop_targets env dId fs σ e h s hs)
    · exact Or.inr (ih e h s hs)
  · intro σ i n fc fo fs cs hfc hto dId rf hrf
    have hrf' : (copyFilesLoop env dId fs σ).ok = false := by
      have := hrf
      simp only [Bool.not_eq_true] at this
      exact this
    intro e he s hs
    simp only [copyFiles, hfc, hto, Bool.false_eq_true, if_false, hrf'] at he
    simp only [uncopiedFileIds, treeFiles_node, uncopiedIdsOf_append, List.mem_append]
    exact Or.inl (copyFilesLoop_targets env dId fs σ e he s hs)
  · intro σ e he
    simp [copyFilesChildren] at he
  · intro σ c rest rc hrc ih1 ih2
    simp only [rc] at hrc ih2
    have hrc' : (copyFiles env c σ).out = COut.ok true := hrc
    intro e he s hs
    simp only [copyFilesChildren, hrc', List.mem_append] at he
    simp only [treeFilesL_cons, uncopiedIdsOf_append, List.mem_append]
    rcases he with h | h
    · exact Or.inl (ih1 e h s hs)
    · exact Or.inr (ih2 e h s hs)
  · intro σ c rest rc hrc ih1
    simp only [rc] at hrc
    have hrc' : (copyFiles env c σ).out = COut.ok false := hrc
    intro e he s hs
    simp only [copyFilesChildren, hrc'] at he
    simp only [treeFilesL_cons, uncopiedIdsOf_append, List.mem_append]
    exact Or.inl (ih1 e he s hs)
  · intro σ c rest rc hrc ih1
    simp only [rc] at hrc
    have hrc' : (copyFiles env c σ).out = COut.err := hrc
    intro e he s hs
    simp only [copyFilesChildren, hrc'] at he
    simp only [treeFilesL_cons, uncopiedIdsOf_append, List.mem_append]
    exact Or.inl (ih1 e he s hs)

/-! Flat membership and uniqueness arguments -/

theorem treeFolders_sub_of_mem (cs : List FolderState) (c : FolderState) (hc : c ∈ cs) :
    ∀ x ∈ treeFolders c, x ∈ treeFoldersL cs := by
  induction cs with
  | nil => cases hc
  | cons c0 rest ih =>
    intro x hx
    rw [treeFoldersL_cons]
    rcases List.mem_cons.mp hc with h | h
    · subst h
      exact List.mem_append_left _ hx
    · exact List.mem_append_right _ (ih h x hx)

theorem mem_treeFolders_self (t : FolderState) : t ∈ treeFolders t := by
  cases t with
  | node i n fc fo d fs cs => simp

theorem mem_treeFolders_of_folderAt :
    ∀ (p : List Nat) (t f : FolderState), t.folderAt p = some f → f ∈ treeFolders t := by
  intro p
  induction p with
  | nil =>
    intro t f h
    simp only [folderAt_nil, Option.some_inj] at h
    subst h
    exact mem_treeFolders_self t
  | cons j q ihq =>
    intro t f h
    cases t with
    | node i n fc fo d fs cs =>
      simp only [folderAt_node_cons] at h
      cases hcj : cs[j]? with
      | none => rw [hcj] at h; cases h
      | some c =>
        rw [hcj] at h
        simp only [Option.some_bind] at h
        have hcmem : c ∈ cs := by
          have := List.getElem?_eq_some_iff.mp hcj
          obtain ⟨hlt, heq⟩ := this
          exact heq ▸ List.getElem_mem hlt
        rw [treeFolders_node]
        exact List.mem_cons_of_mem _ (treeFolders_sub_of_mem cs c hcmem f (ihq c f h))

theorem treeFiles_sub_of_mem (cs : List FolderState) (c : FolderState) (hc : c ∈ cs) :
    ∀ g ∈ treeFiles c, g ∈ treeFilesL cs := by
  induction cs with
  | nil => cases hc
  | cons c0 rest ih =>
    intro g hg
    rw [treeFilesL_cons]
    rcases List.mem_cons.mp hc with h | h
    · subst h
      exact List.mem_append_left _ hg
    · exact List.mem_append_right _ (ih h g hg)

theorem mem_treeFiles_of_fileAt :
    ∀ (p : List Nat) (t nd : FolderState) (i : Nat) (g : FileState),
      t.folderAt p = some nd → nd.files[i]? = some g → g ∈ treeFiles t := by
  intro p
  induction p with
  | nil =>
    intro t nd i g h hg
    simp only [folderAt_nil, Option.some_inj] at h
    subst h
    cases t with
    | node i0 n fc fo d fs cs =>
      simp only [FolderState.files_node] at hg
      have hmem : g ∈ fs := by
        have := List.getElem?_eq_some_iff.mp hg
        obtain ⟨hlt, heq⟩ := this
        exact heq ▸ List.getElem_mem hlt
      rw [treeFiles_node]
      exact List.mem_append_left _ hmem
  | cons j q ihq =>
    intro t nd i g h hg
    cases t with
    | node i0 n fc fo d fs cs =>
      simp only [folderAt_node_cons] at h
      cases hcj : cs[j]? with
      | none => rw [hcj] at h; cases h
      | some c =>
        rw [hcj] at h
        simp only [Option.some_bind] at h
        have hcmem : c ∈ cs := by
          have := List.getElem?_eq_some_iff.mp hcj
          obtain ⟨hlt, heq⟩ := this
          exact heq ▸ List.getElem_mem hlt
        rw [treeFiles_node]
        exact List.mem_append_right _
          (treeFiles_sub_of_mem cs c hcmem g (ihq c nd i g h hg))

/-- With globally unique folder ids, a folder whose `destId` is recorded is not among
the uncreated ids. -/
theorem not_mem_uncreated (t f : FolderState) (p : List Nat) (v : String)
    (hnd : (allFolderIds t).Nodup) (hat : t.folderAt p = some f)
    (hd : f.destId = some v) : f.id ∉ uncreatedFolderIds t := by
  intro hmem
  simp only [uncreatedFolderIds, List.mem_map] at hmem
  obtain ⟨g, hg, hgid⟩ := hmem
  obtain ⟨hgmem, hgnone⟩ := List.mem_filter.mp hg
  have hf : f ∈ treeFolders t := mem_treeFolders_of_folderAt p t f hat
  have hgf : g = f :=
    List.inj_on_of_nodup_map hnd hgmem hf hgid
  rw [hgf, hd] at hgnone
  cases hgnone

/-- With globally unique file ids, a file whose `destId` is recorded is not among the
uncopied ids. -/
theorem not_mem_uncopied (t nd : FolderState) (p : List Nat) (i : Nat) (g : FileState)
    (v : String) (hnd : (allFileIds t).Nodup) (hat : t.folderAt p = some nd)
    (hgi : nd.files[i]? = some g) (hd : g.destId = some v) :
    g.id ∉ uncopiedFileIds t := by
  intro hmem
  simp only [uncopiedFileIds, uncopiedIdsOf, List.mem_map] at hmem
  obtain ⟨g2, hg2, hg2id⟩ := hmem
  obtain ⟨hg2mem, hg2none⟩ := List.mem_filter.mp hg2
  have hgmem : g ∈ treeFiles t := mem_treeFiles_of_fileAt p t nd i g hat hgi
  have hg2g : g2 = g := by
    have hmap : (allFileIds t).Nodup := hnd
    exact List.inj_on_of_nodup_map hmap hg2mem hgmem hg2id
  rw [hg2g, hd] at hg2none
  cases hg2none

/-! Wrappers and cross-execution chaining -/

theorem createFolders_mono (env : Env) (t : FolderState) (σ : St) :
    (∀ p v, destIdAt t p = some (some v) →
      destIdAt (createFolders env t σ).tree p = some (some v)) ∧
    (∀ p i v, fileDestAt t p i = some (some v) →
      fileDestAt (createFolders env t σ).tree p i = some (some v)) := by
  by_cases h1 : t.foldersCopied = true
  · rw [createFolders_done env t σ h1]
    exact ⟨fun p v hp => hp, fun p i v hp => hp⟩
  · by_cases h2 : checkTimeout σ = true
    · simp only [createFolders, h1, Bool.false_eq_true, if_false, h2, if_true]
      exact ⟨fun p v hp => hp, fun p i v hp => hp⟩
    · cases h3 : t.destId with
      | none =>
        simp only [createFolders, h1, h2, Bool.false_eq_true, if_false, h3]
        exact ⟨fun p v hp => hp, fun p i v hp => hp⟩
      | some dId =>
        simp only [createFolders, h1, h2, Bool.false_eq_true, if_false, h3]
        exact createFoldersGo_mono env dId t σ (Or.inr h3)

theorem createFolders_targets (env : Env) (t : FolderState) (σ : St) :
    ∀ e ∈ (createFolders env t σ).events, ∀ s, eventSrcFolderId e = some s →
      s ∈ uncreatedFolderIds t := by
  intro e he s hs
  by_cases h1 : t.foldersCopied = true
  · rw [createFolders_done env t σ h1] at he
    simp at he
  · by_cases h2 : checkTimeout σ = true
    · simp only [createFolders, h1, Bool.false_eq_true, if_false, h2, if_true] at he
      simp at he
    · cases h3 : t.destId with
      | none =>
        simp only [createFolders, h1, h2, Bool.false_eq_true, if_false, h3] at he
        simp at he
      | some dId =>
        simp only [createFolders, h1, h2, Bool.false_eq_true, if_false, h3] at he
        exact uncreatedFolderIds_sub_of_children t s
          (createFoldersGo_targets env dId t σ e he s hs)

theorem runExecution_mono (env : Env) (t : FolderState) (d f : Nat) :
    (∀ p v, destIdAt t p = some (some v) →
      destIdAt (runExecution env t d f).tree p = some (some v)) ∧
    (∀ p i v, fileDestAt t p i = some (some v) →
      fileDestAt (runExecution env t d f).tree p i = some (some v)) := by
  obtain ⟨a1, a2⟩ := createFolders_mono env t ⟨0, d, f⟩
  cases h : (createFolders env t ⟨0, d, f⟩).out with
  | ok b =>
    cases b with
    | true =>
      obtain ⟨b1, b2⟩ := copyFiles_mono env (createFolders env t ⟨0, d, f⟩).tree
        (createFolders env t ⟨0, d, f⟩).st
      constructor
      · intro p v hp
        simp only [runExecution, h]
        exact b1 p v (a1 p v hp)
      · intro p i v hp
        simp only [runExecution, h]
        exact b2 p i v (a2 p i v hp)
    | false =>
      constructor
      · intro p v hp
        simp only [runExecution, h]
        exact a1 p v hp
      · intro p i v hp
        simp only [runExecution, h]
        exact a2 p i v hp
  | err =>
    constructor
    · intro p v hp
      simp only [runExecution, h]
      exact a1 p v hp
    · intro p i v hp
      simp only [runExecution, h]
      exact a2 p i v hp

theorem runJob_mono (env : Env) (s : JobState) (d : Nat) :
    (∀ p v, destIdAt s.saved p = some (some v) →
      destIdAt (runJob env s d).saved p = some (some v)) ∧
    (∀ p i v, fileDestAt s.saved p i = some (some v) →
      fileDestAt (runJob env s d).saved p i = some (some v)) := by
  by_cases hd : s.done
  · simp only [runJob, hd, if_true]
    exact ⟨fun p v hp => hp, fun p i v hp => hp⟩
  · obtain ⟨a1, a2⟩ := runExecution_mono env s.saved d s.fresh
    cases h : (runExecution env s.saved d s.fresh).out with
    | ok b =>
      cases b with
      | true =>
        constructor
        · intro p v hp
          simp only [runJob, hd, Bool.false_eq_true, if_false, h]
          exact a1 p v hp
        · intro p i v hp
          simp only [runJob, hd, Bool.false_eq_true, if_false, h]
          exact a2 p i v hp
      | false =>
        constructor
        · intro p v hp
          simp only [runJob, hd, Bool.false_eq_true, if_false, h]
          exact a1 p v hp
        · intro p i v hp
          simp only [runJob, hd, Bool.false_eq_true, if_false, h]
          exact a2 p i v hp
    | err =>
      constructor
      · intro p v hp
        simp only [runJob, hd, Bool.false_eq_true, if_false, h]
        exact hp
      · intro p i v hp
        simp only [runJob, hd, Bool.false_eq_true, if_false, h]
        exact hp

theorem runJobSeq_mono (env : Env) : ∀ (ds : List Nat) (s : JobState),
    (∀ p v, destIdAt s.saved p = some (some v) →
      destIdAt (runJobSeq env s ds).saved p = some (some v)) ∧
    (∀ p i v, fileDestAt s.saved p i = some (some v) →
      fileDestAt (runJobSeq env s ds).saved p i = some (some v)) := by
  intro ds
  induction ds with
  | nil =>
    intro s
    exact ⟨fun p v hp => hp, fun p i v hp => hp⟩
  | cons d rest ih =>
    intro s
    obtain ⟨a1, a2⟩ := runJob_mono env s d
    obtain ⟨b1, b2⟩ := ih (runJob env s d)
    constructor
    · intro p v hp
      exact b1 p v (a1 p v hp)
    · intro p i v hp
      exact b2 p i v (a2 p i v hp)

/-- Claim C8: once a node's `destId` is set — on a file or a folder of the progress
tree — no later operation ever clears it (`createFolders`, `copyFiles`, and any sequence
of whole-job invocations preserve every recorded `destId` verbatim), and no create/copy
is ever re-issued for that node: every folder-creation event targets a folder whose
`destId` was absent at the start of the call, every copy event targets a file whose
`destId` was absent, and under globally unique ids no event ever names a node whose
`destId` was already recorded. -/
theorem c8_destid_monotone_never_reissued (env : Env) (t : FolderState) (σ : St) :
    (∀ p v, destIdAt t p = some (some v) →
      destIdAt (createFolders env t σ).tree p = some (some v) ∧
      destIdAt (copyFiles env t σ).tree p = some (some v)) ∧
    (∀ p i v, fileDestAt t p i = some (some v) →
      fileDestAt (createFolders env t σ).tree p i = some (some v) ∧
      fileDestAt (copyFiles env t σ).tree p i = some (some v)) ∧
    (∀ e ∈ (createFolders env t σ).events, ∀ s, eventSrcFolderId e = some s →
      s ∈ uncreatedFolderIds t) ∧
    (∀ e ∈ (copyFiles env t σ).events, ∀ s, eventSrcFileId e = some s →
      s ∈ uncopiedFileIds t) ∧
    ((allFolderIds t).Nodup → ∀ (p : List Nat) (f : FolderState) (v : String),
      t.folderAt p = some f → f.destId = some v →
      ∀ e ∈ (createFolders env t σ).events, eventSrcFolderId e ≠ some f.id) ∧
    ((allFileIds t).Nodup → ∀ (p : List Nat) (nd : FolderState) (i : Nat)
      (g : FileState) (v : String), t.folderAt p = some nd →
      nd.files[i]? = some g → g.destId = some v →
      ∀ e ∈ (copyFiles env t σ).events, eventSrcFileId e ≠ some g.id) ∧
    (∀ (ds : List Nat) (s : JobState) (p : List Nat) (v : String),
      destIdAt s.saved p = some (some v) →
      destIdAt (runJobSeq env s ds).saved p = some (some v)) := by
  refine ⟨?_, ?_, ?_, ?_, ?_, ?_, ?_⟩
  · intro p v hp
    exact ⟨(createFolders_mono env t σ).1 p v hp, (copyFiles_mono env t σ).1 p v hp⟩
  · intro p i v hp
    exact ⟨(createFolders_mono env t σ).2 p i v hp, (copyFiles_mono env t σ).2 p i v hp⟩
  · exact createFolders_targets env t σ
  · exact copyFiles_targets env t σ
  · intro hnd p f v hat hd e he heq
    exact not_mem_uncreated t f p v hnd hat hd
      (createFolders_targets env t σ e he f.id heq)
  · intro hnd p nd i g v hat hgi hd e he heq
    exact not_mem_uncopied t nd p i g v hnd hat hgi hd
      (copyFiles_targets env t σ e he g.id heq)
  · intro ds s p v hp
    exact (runJobSeq_mono env ds s).1 p v hp

/-- Witness for C8: A's recorded destination id survives both phases on the persisted
tree of the interrupted scenario. -/
theorem c8_destid_monotone_never_reissued_witness :
    destIdAt (createFolders plainEnv savedAfterTimeout ⟨0, 50, 1⟩).tree [0] =
      some (some "dest-0") ∧
    destIdAt (copyFiles plainEnv savedAfterTimeout ⟨0, 50, 1⟩).tree [0] =
      some (some "dest-0") :=
  (c8_destid_monotone_never_reissued plainEnv savedAfterTimeout ⟨0, 50, 1⟩).1 [0] "dest-0" (by decide)

end DriveCopy
